import Mathlib

/-!
# Verification of the argument resolution engine (`src/struct/Argument.js`)

This file gives a shallow embedding of the two units of the engine:

* the type caster `Argument#cast` (enumerated-choice lists, casting
  functions, regular-expression types, named-type lookup, fallback), and
* the interactive prompt state machine `Argument#collect` / `promptOne`,
  together with the entry point `Argument#process` and the text-templating
  helper `getText`.

Modelling conventions:

* A message is represented by its text content (a `String`); the transport
  filter in `awaitMessages` (drop the just-sent message, drop other
  authors) is the transport collaborator's concern, so the inbound event
  script is taken to be already filtered: each turn's `awaitMessages`
  consumes exactly one `Event` (a reply, a collector timeout, or a genuine
  transport `Error`).
* JavaScript regular expressions are embedded for literal patterns: the
  pattern source is a plain string and `exec` at `lastIndex = i` returns
  the leftmost occurrence of the source at or after `i` (`RegExp.exec`
  semantics for a literal source).  A global pattern whose source is the
  empty string models a pattern that matches the empty string at every
  position (for example `new RegExp("", "g")`).
* The `while ((matched = this.type.exec(word)) != null)` loop of the
  source advances only through `lastIndex`; when a match has zero width
  `lastIndex` does not move and the loop in the source never terminates.
  The embedding returns the marker `CastOut.diverge` in exactly that case.
* The handler's active-prompt tracker is external to this file's source.
  Modelled from the spec: `register`/`deregister` keyed by context, a set,
  so for the single prompting context it reduces to a Boolean flag
  (`MState.active`).
* Promise values are modelled as already-resolved values (`process` and
  `cast` await every promise before using the result).
-/

namespace Akairo

/-- `String.prototype.toLowerCase`, character by character (the engine only
compares the results for equality). -/
def jsToLower (s : String) : String := ⟨s.data.map Char.toLower⟩

/-- `String.prototype.trim` (line 285). -/
def jsTrim (s : String) : String :=
  ⟨((s.data.dropWhile Char.isWhitespace).reverse.dropWhile
      Char.isWhitespace).reverse⟩

/-- One regular-expression match record: the matched text together with the
`index` property of a JavaScript match object. -/
structure MatchRec where
  matched : String
  index : Nat
deriving DecidableEq

/-- The result of `word.match(regexp)`: a single match record for a
non-global pattern, the array of all matched substrings for a global one. -/
inductive JsMatch where
  | one (m : MatchRec)
  | all (ms : List String)
deriving DecidableEq

/-- The structured `{ match, matches }` value built for regex types.
(`match` and `matches` are reserved words in Lean, hence the field names
`jsmatch` and `matchList`.) -/
structure RegexResult where
  jsmatch : JsMatch
  matchList : List MatchRec
deriving DecidableEq

/-- A cast value: a plain string (choices, fallback), a regex result, or an
opaque value produced by a user-supplied casting function. -/
inductive CVal where
  | str (s : String)
  | rx (r : RegexResult)
  | custom (n : Nat)
deriving DecidableEq

/-- A value stored in the previous-arguments object: a single cast value or
the accumulated array of an infinite prompt. -/
inductive AVal where
  | one (v : CVal)
  | many (l : List CVal)
deriving DecidableEq

/-- The previous-arguments object `args`, keyed by argument id.  Property
assignment is modelled by shadowing: `setArg` conses a binding and `getArg`
reads the most recent one. -/
abbrev Args := List (String × AVal)

def getArg (a : Args) (k : String) : Option AVal :=
  (a.find? fun e => e.1 == k).map fun e => e.2

def setArg (a : Args) (k : String) (v : AVal) : Args := (k, v) :: a

/-- One entry of an enumerated-choice type: a candidate string or an inner
array of aliases whose first entry is the canonical value. -/
inductive Cand where
  | str (s : String)
  | aliases (l : List String)
deriving DecidableEq

/-- Whether a candidate matches the word, case-insensitively (the
`toLowerCase` comparisons of lines 317 and 321 of the source). -/
def candMatches (c : Cand) (word : String) : Bool :=
  match c with
  | .str s => jsToLower s == jsToLower word
  | .aliases l => l.any fun t => jsToLower t == jsToLower word

/-- The value returned for a matching candidate: `entry[0]` for an alias
array, the candidate itself otherwise. -/
def canonical : Cand → Option String
  | .str s => some s
  | .aliases l => l.head?

/-- The enumerated-choice branch of `Argument#cast` (lines 314-327): scan the
candidates in order, return the canonical value of the first match, `null`
when nothing matches. -/
def castChoices (cands : List Cand) (word : String) : Option String :=
  match cands with
  | [] => none
  | c :: rest =>
    match c with
    | .aliases l =>
      if l.any fun t => jsToLower t == jsToLower word then l.head?
      else castChoices rest word
    | .str s =>
      if jsToLower s == jsToLower word then some s
      else castChoices rest word

/-- A literal-source regular expression: the `source` string and the
`global` flag. -/
structure Pattern where
  source : String
  global : Bool

/-- `occursAt src w s`: the literal pattern `src` matches inside `w` at
position `s`. -/
def occursAt (src w : List Char) (s : Nat) : Bool :=
  decide (s + src.length ≤ w.length) && ((w.drop s).take src.length == src)

/-- Fuelled search for the leftmost occurrence at or after position `i`
(`RegExp.exec` with `lastIndex = i` for a literal source). -/
def execAtFuel : Nat → List Char → List Char → Nat → Option Nat
  | 0, _, _, _ => none
  | fuel + 1, src, w, i =>
    if i ≤ w.length then
      if occursAt src w i then some i else execAtFuel fuel src w (i + 1)
    else none

/-- `exec` at `lastIndex = i`: the fuel `w.length + 2` always suffices. -/
def execAt (src w : List Char) (i : Nat) : Option Nat :=
  execAtFuel (w.length + 2) src w i

/-- The `while ((matched = this.type.exec(word)) != null)` loop of lines
343-347: collect match positions, each round continuing from the end of the
previous match.  When a match has zero width `lastIndex` does not advance
and the loop in the source never terminates; that case is reported as
`none`. -/
def execLoopFuel : Nat → List Char → List Char → Nat → Option (List Nat)
  | 0, _, _, _ => none
  | fuel + 1, src, w, i =>
    match execAt src w i with
    | none => some []
    | some s =>
      if i < s + src.length then
        (execLoopFuel fuel src w (s + src.length)).map fun L => s :: L
      else none

def execLoop (src w : List Char) (i : Nat) : Option (List Nat) :=
  execLoopFuel (w.length + 2) src w i

/-- `String.prototype.match` with a global pattern: collect every match,
advancing by one position past a zero-width match (`AdvanceStringIndex`), so
this loop always terminates. -/
def matchAllFuel : Nat → List Char → List Char → Nat → List Nat
  | 0, _, _, _ => []
  | fuel + 1, src, w, i =>
    match execAt src w i with
    | none => []
    | some s =>
      s :: matchAllFuel fuel src w (if src.length = 0 then s + 1 else s + src.length)

def matchAll (src w : List Char) (i : Nat) : List Nat :=
  matchAllFuel (w.length + 2) src w i

/-- The outcome of one cast: `null`, a value, or the marker that the
embedded code does not terminate (zero-width global regex loop). -/
inductive CastOut where
  | null
  | val (v : CVal)
  | diverge
deriving DecidableEq

/-- The regular-expression branch of `Argument#cast` (lines 336-351):
`word.match` decides between `null` and a result; for a global pattern the
`exec` loop fills `matches`. -/
def castRegex (p : Pattern) (word : String) : CastOut :=
  let src := p.source.data
  let w := word.data
  let m : Option JsMatch :=
    if p.global then
      let ms := matchAll src w 0
      if ms.isEmpty then none else some (.all (ms.map fun _ => p.source))
    else
      (execAt src w 0).map fun s => .one ⟨p.source, s⟩
  match m with
  | none => .null
  | some jm =>
    if p.global then
      match execLoop src w 0 with
      | some L => .val (.rx ⟨jm, L.map fun s => ⟨p.source, s⟩⟩)
      | none => .diverge
    else .val (.rx ⟨jm, []⟩)

/-- The declared type of an argument: enumerated choices, a user casting
function `(word, message, args)`, a regular expression, or the name of a
registered type (a plain string type name falls through to the verbatim
fallback when the registry does not know it). -/
inductive TypeSpec where
  | choices (cands : List Cand)
  | fn (f : String → String → Args → Option CVal)
  | regex (p : Pattern)
  | named (name : String)

/-- The external type registry (`this.handler.resolver.type`). -/
abbrev Resolver := String → Option (String → String → Args → Option CVal)

/-- `Argument#cast` (lines 313-362), dispatching in source order: array,
function, regular expression, registered name, verbatim fallback. -/
def cast (resolver : Resolver) (ty : TypeSpec) (word : String) (msg : String)
    (args : Args) : CastOut :=
  match ty with
  | .choices cands =>
    match castChoices cands word with
    | some v => .val (.str v)
    | none => .null
  | .fn f =>
    match f word msg args with
    | some v => .val v
    | none => .null
  | .regex p => castRegex p word
  | .named n =>
    match resolver n with
    | some f =>
      match f word msg args with
      | some v => .val v
      | none => .null
    | none => if word ≠ "" then .val (.str word) else .null

/-! ## The prompt state machine (`Argument#collect`, lines 372-487) -/

/-- One inbound event observed by a turn's `awaitMessages` call: a reply
from the prompted user, the distinguished collector timeout, or a genuine
transport `Error` (modelled by a numeric payload). -/
inductive Event where
  | reply (content : String)
  | timeout
  | fail (code : Nat)
deriving DecidableEq

/-- The prompt text fields of the merged prompt options. -/
inductive TField where
  | start
  | retry
  | timeout
  | ended
  | cancel
deriving DecidableEq

/-- The data object passed to a prompt text function
(`{retries, infinite, message, word}` of lines 388-392); the `message`
field is represented by the message's content. -/
structure PromptData where
  retries : Nat
  infinite : Bool
  message : String
  word : String
deriving DecidableEq

/-- What a prompt text function may return: a string or an array of
strings. -/
inductive TextRes where
  | str (s : String)
  | strs (l : List String)

/-- A configured prompt text option: absent, a literal string, an array of
strings, or a generator function `(message, args, data)`. -/
inductive TextOpt where
  | undef
  | str (s : String)
  | strs (l : List String)
  | fn (f : String → Args → PromptData → TextRes)

/-- The effective (merged) prompt options of one `collect` run; the 3-way
`Object.assign` merge of lines 373-377 happens before the machine starts
and is not itself modelled.  `limit = none` stands for the default
`Infinity`. -/
structure PromptOpts where
  retries : Nat
  time : Nat
  cancelWord : String
  stopWord : String
  optional : Bool
  infinite : Bool
  limit : Option Nat
  start : TextOpt
  retry : TextOpt
  timeout : TextOpt
  ended : TextOpt
  cancel : TextOpt

/-- An effect recorded by the machine, in chronological order:
registering/deregistering the active prompt, an outbound send, a call of a
prompt text function (with the data object it received), and a call of
`this.cast` on a reply (with the `args` object it received). -/
inductive Eff where
  | addPrompt (retryCount : Nat)
  | removePrompt
  | send (text : String)
  | tcall (field : TField) (d : PromptData)
  | castCall (word : String) (args : Args)
deriving DecidableEq

/-- Mutable state threaded through a `collect` run: the previous-arguments
object, whether this context is in the handler's active-prompt set
(modelled from the spec: register/deregister keyed by context), and the
chronological effect log. -/
structure MState where
  args : Args
  active : Bool
  log : List Eff
deriving DecidableEq

def pushEff (e : Eff) (st : MState) : MState :=
  { st with log := st.log ++ [e] }

/-- Terminal result of a prompt session or of `process`: a single cast
value, the accumulated sequence of an infinite prompt, the thrown
`Symbols.COMMAND_CANCELLED` sentinel, a re-raised `Error`, or the marker
that the embedded code does not terminate. -/
inductive Outcome where
  | value (v : CVal)
  | values (vs : List CVal)
  | cancelled
  | failure (code : Nat)
  | hung
deriving DecidableEq

/-- The argument match mode.  Only whether the mode is `separate` is
observable inside this file (line 380); every other mode behaves alike
here and is represented by `word`. -/
inductive MatchType where
  | word
  | separate
deriving DecidableEq

/-- Session-constant data of one `collect` run. -/
structure Ctx where
  cfg : PromptOpts
  ty : TypeSpec
  resolver : Resolver
  origMsg : String
  commandInput : String
  isInfinite : Bool
  id : String

/-- `getText` (lines 385-400): call a function option with
`(message, args, {retries, infinite, message, word})`, join an array of
strings with newlines, pass a literal through.  A call of a text function
is recorded in the log. -/
def getText (ctx : Ctx) (field : TField) (opt : TextOpt) (retryCount : Nat)
    (inputMessage : String) (inputWord : String) (st : MState) :
    Option String × MState :=
  match opt with
  | .undef => (none, st)
  | .str s => (some s, st)
  | .strs l => (some (String.intercalate "\n" l), st)
  | .fn f =>
    let d : PromptData :=
      ⟨retryCount, ctx.isInfinite, inputMessage, inputWord⟩
    let st := pushEff (.tcall field d) st
    match f ctx.origMsg st.args d with
    | .str s => (some s, st)
    | .strs l => (some (String.intercalate "\n" l), st)

/-- `if (startText) sent = await … .send(startText)`: a resolved text is
sent unless it is falsy (absent or the empty string). -/
def sendIf (txt : Option String) (st : MState) : MState :=
  match txt with
  | none => st
  | some s => if s = "" then st else pushEff (.send s) st

/-- `this.handler.addPrompt(message)` at the start of every turn
(line 403). -/
def registerTurn (rc : Nat) (st : MState) : MState :=
  pushEff (.addPrompt rc) { st with active := true }

/-- The `word` argument handed to the start/retry text of a turn
(lines 413-418): the original failing token on the first one or two turns,
the previous reply's content afterwards. -/
def wordArg (ctx : Ctx) (prev : String) (rc : Nat) : String :=
  if rc ≤ 1 + (if ctx.commandInput ≠ "" then 1 else 0) then ctx.commandInput
  else prev

/-- The send phase of one turn (lines 405-429): decide whether to send,
pick start or retry text, resolve and send it. -/
def sendPhase (ctx : Ctx) (prev : String) (rc : Nat) (values : List CVal)
    (st : MState) : MState :=
  let shouldSend :=
    if rc == 1 then !ctx.isInfinite || (ctx.isInfinite && values.isEmpty)
    else true
  if shouldSend then
    let field := if rc == 1 then TField.start else TField.retry
    let prompter := if rc == 1 then ctx.cfg.start else ctx.cfg.retry
    let r := getText ctx field prompter rc prev (wordArg ctx prev rc) st
    sendIf r.1 r.2
  else st

/-- The timeout handler of the catch block (lines 473-479): send the
timeout text if any, deregister the prompt, raise the cancellation
sentinel. -/
def finishTimeout (ctx : Ctx) (prev : String) (rc : Nat) (st : MState) :
    Outcome × MState :=
  let r := getText ctx .timeout ctx.cfg.timeout rc prev "" st
  let st := sendIf r.1 r.2
  let st := pushEff .removePrompt { st with active := false }
  (.cancelled, st)

/-- What one turn does after its awaited event arrives: terminate with an
outcome, or start another turn with new parameters. -/
inductive StepOut where
  | done (out : Outcome) (st : MState)
  | again (prev : String) (rc : Nat) (values : List CVal) (st : MState)

/-- The body of one turn after the send phase (lines 431-480): cancel-word
check, stop-word check for infinite prompts, cast, and the catch block for
timeout and genuine errors. -/
def promptStep (ctx : Ctx) (ev : Event) (prev : String) (rc : Nat)
    (values : List CVal) (st : MState) : StepOut :=
  match ev with
  | .timeout =>
    let r := finishTimeout ctx prev rc st
    .done r.1 r.2
  | .fail code => .done (.failure code) st
  | .reply c =>
    if jsToLower c == jsToLower ctx.cfg.cancelWord then
      let r := getText ctx .cancel ctx.cfg.cancel rc c "" st
      let st := sendIf r.1 r.2
      let st := pushEff .removePrompt { st with active := false }
      .done .cancelled st
    else if ctx.isInfinite && jsToLower c == jsToLower ctx.cfg.stopWord then
      if values.isEmpty then .again c (rc + 1) values st
      else .done (.values values) st
    else
      let st := pushEff (.castCall c st.args) st
      match cast ctx.resolver ctx.ty c c st.args with
      | .null => .again c (rc + 1) values st
      | .diverge => .done .hung st
      | .val v =>
        if ctx.isInfinite then
          let values := values ++ [v]
          let st := { st with args := setArg st.args ctx.id (.many values) }
          if (match ctx.cfg.limit with
              | none => true
              | some n => decide (values.length < n)) then
            .again ctx.origMsg 1 values st
          else .done (.values values) st
        else .done (.value v) st

/-- `promptOne` (lines 402-481): register, send, await one event, act on
it, recurse for the next turn when required.  An exhausted event script
behaves as a collector timeout (the transport delivers an event within the
bounded window or raises the time error).  Returns the outcome, the final
state, and the unconsumed remainder of the script. -/
def promptOne (ctx : Ctx) :
    List Event → String → Nat → List CVal → MState →
    Outcome × MState × List Event
  | [], prev, rc, values, st =>
    let st := sendPhase ctx prev rc values (registerTurn rc st)
    let r := finishTimeout ctx prev rc st
    (r.1, r.2, [])
  | ev :: rest, prev, rc, values, st =>
    let st := sendPhase ctx prev rc values (registerTurn rc st)
    match promptStep ctx ev prev rc values st with
    | .done out st => (out, st, rest)
    | .again p r v s => promptOne ctx rest p r v s

/-- Whether the session is infinite (line 380): the `infinite` option,
except that a `separate` match with a prior token is not infinite. -/
def isInf (cfg : PromptOpts) (matchType : MatchType) (commandInput : String) :
    Bool :=
  cfg.infinite && (if matchType == MatchType.separate then commandInput == ""
                   else true)

/-- `Argument#collect` (lines 372-487): set up the infinite-mode values
array (stored into `args` under the argument's id), run the first turn with
`retryCount = 1 + Number(Boolean(commandInput))`, and on a successful
return deregister the active prompt; a thrown outcome propagates without
reaching the post-loop lines 484-485. -/
def collect (cfg : PromptOpts) (ty : TypeSpec) (resolver : Resolver)
    (matchType : MatchType) (id : String) (origMsg : String) (args : Args)
    (commandInput : String) (script : List Event) :
    Outcome × MState × List Event :=
  let isInfinite := isInf cfg matchType commandInput
  let args0 := if isInfinite then setArg args id (.many []) else args
  let st0 : MState := ⟨args0, false, []⟩
  let ctx : Ctx := ⟨cfg, ty, resolver, origMsg, commandInput, isInfinite, id⟩
  let r := promptOne ctx script origMsg
    (1 + (if commandInput ≠ "" then 1 else 0)) [] st0
  match r.1 with
  | .value v =>
    (.value v, pushEff .removePrompt { r.2.1 with active := false }, r.2.2)
  | .values vs =>
    (.values vs, pushEff .removePrompt { r.2.1 with active := false }, r.2.2)
  | out => (out, r.2.1, r.2.2)

/-- The long-lived argument definition fields that `process` reads.  The
default value provider is already wrapped as a function of
`(message, args)` (line 246). -/
structure ArgSpec where
  id : String
  matchType : MatchType
  ty : TypeSpec
  prompt : Option PromptOpts
  dflt : String → Args → CVal

/-- `Argument#process` (lines 284-304): trim; empty word with an optional
prompt short-circuits to the default; otherwise cast, and on a null cast
either prompt or fall back to the default. -/
def process (a : ArgSpec) (resolver : Resolver) (word : String)
    (origMsg : String) (args : Args) (script : List Event) :
    Outcome × MState × List Event :=
  let w := jsTrim word
  if w == "" && (match a.prompt with
                 | some cfg => cfg.optional
                 | none => false) then
    (.value (a.dflt origMsg args), ⟨args, false, []⟩, script)
  else
    match cast resolver a.ty w origMsg args with
    | .val v => (.value v, ⟨args, false, []⟩, script)
    | .diverge => (.hung, ⟨args, false, []⟩, script)
    | .null =>
      match a.prompt with
      | some cfg =>
        collect cfg a.ty resolver a.matchType a.id origMsg args w script
      | none => (.value (a.dflt origMsg args), ⟨args, false, []⟩, script)

/-! ## C2: enumerated-choice casting -/

theorem castChoices_none_iff (cands : List Cand) (word : String) :
    castChoices cands word = none ↔ ∀ c ∈ cands, candMatches c word = false := by
  induction cands with
  | nil => simp [castChoices]
  | cons c rest ih =>
    cases c with
    | str s =>
      by_cases h : (jsToLower s == jsToLower word) = true
      · simp [castChoices, h, candMatches]
      · simp only [Bool.not_eq_true] at h
        simp [castChoices, h, candMatches, ih]
    | aliases l =>
      by_cases h : (l.any fun t => jsToLower t == jsToLower word) = true
      · cases l with
        | nil => simp at h
        | cons x xs => simp [castChoices, h, candMatches]
      · simp only [Bool.not_eq_true] at h
        simp [castChoices, h, candMatches, ih]

theorem castChoices_congr (cands : List Cand) (word w' : String)
    (h : jsToLower w' = jsToLower word) :
    castChoices cands w' = castChoices cands word := by
  induction cands with
  | nil => rfl
  | cons c rest ih =>
    cases c with
    | str s => simp only [castChoices, h, ih]
    | aliases l => simp only [castChoices, h, ih]

theorem castChoices_first (word : String) :
    ∀ (pre : List Cand) (c : Cand) (post : List Cand),
      candMatches c word = true →
      (∀ c' ∈ pre, candMatches c' word = false) →
      castChoices (pre ++ c :: post) word = canonical c := by
  intro pre
  induction pre with
  | nil =>
    intro c post hm _
    cases c with
    | str s =>
      simp only [candMatches] at hm
      simp [castChoices, hm, canonical]
    | aliases l =>
      simp only [candMatches] at hm
      simp [castChoices, hm, canonical]
  | cons c' pre' ih =>
    intro c post hm hpre
    have h0 : candMatches c' word = false := hpre c' (by simp)
    cases c' with
    | str s =>
      simp only [candMatches] at h0
      simp only [List.cons_append, castChoices, h0, Bool.false_eq_true,
        if_false]
      exact ih c post hm fun x hx => hpre x (by simp [hx])
    | aliases l =>
      simp only [candMatches] at h0
      simp only [List.cons_append, castChoices, h0, Bool.false_eq_true,
        if_false]
      exact ih c post hm fun x hx => hpre x (by simp [hx])

/-- **C2.**  For every token and every enumerated-choice type: the cast is
`null` exactly when no candidate matches; the result only depends on the
lower-cased token (case-insensitivity); and when the token matches a
candidate (any alias of it, case-insensitively) and no earlier candidate
matches, the cast returns that candidate's canonical value — the first
element of the alias array, or the candidate string itself. -/
theorem claim2_enumerated_choices (cands : List Cand) (word : String) :
    (castChoices cands word = none ↔ ∀ c ∈ cands, candMatches c word = false)
    ∧ (∀ w', jsToLower w' = jsToLower word →
        castChoices cands w' = castChoices cands word)
    ∧ (∀ pre c post, cands = pre ++ c :: post → candMatches c word = true →
        (∀ c' ∈ pre, candMatches c' word = false) →
        castChoices cands word = canonical c) :=
  ⟨castChoices_none_iff cands word,
   fun w' h => castChoices_congr cands word w' h,
   fun pre c post hc hm hp => hc ▸ castChoices_first word pre c post hm hp⟩

/-- Witness for C2: `"R"` matches the alias list `["Red", "r"]`
case-insensitively and the canonical first alias `"Red"` is returned. -/
theorem claim2_witness :
    castChoices [Cand.aliases ["Red", "r"], Cand.str "blue"] "R"
      = some "Red" :=
  (claim2_enumerated_choices [Cand.aliases ["Red", "r"], Cand.str "blue"]
      "R").2.2 [] (Cand.aliases ["Red", "r"]) [Cand.str "blue"] rfl
    (by decide) (by decide)

/-! ## C3: regular-expression casting -/

theorem occursAt_bounds {src w : List Char} {s : Nat}
    (h : occursAt src w s = true) : s + src.length ≤ w.length := by
  simp only [occursAt, Bool.and_eq_true, decide_eq_true_eq] at h
  exact h.1

theorem execAtFuel_none {src w : List Char} :
    ∀ {fuel i : Nat}, w.length + 1 - i < fuel →
      execAtFuel fuel src w i = none →
      ∀ s, i ≤ s → occursAt src w s = false := by
  intro fuel
  induction fuel with
  | zero => intro i h; exact absurd h (Nat.not_lt_zero _)
  | succ fuel ih =>
    intro i hfuel hnone s hs
    simp only [execAtFuel] at hnone
    by_cases hi : i ≤ w.length
    · rw [if_pos hi] at hnone
      by_cases hocc : occursAt src w i = true
      · rw [if_pos hocc] at hnone
        exact absurd hnone (by simp)
      · rw [if_neg hocc] at hnone
        rcases Nat.eq_or_lt_of_le hs with rfl | hlt
        · simp only [Bool.not_eq_true] at hocc
          exact hocc
        · exact ih (by omega) hnone s hlt
    · have hb : decide (s + src.length ≤ w.length) = false := by
        simp only [decide_eq_false_iff_not]
        omega
      simp [occursAt, hb]

theorem execAtFuel_some {src w : List Char} :
    ∀ {fuel i s : Nat}, w.length + 1 - i < fuel →
      execAtFuel fuel src w i = some s →
      occursAt src w s = true ∧ i ≤ s ∧
        ∀ t, i ≤ t → t < s → occursAt src w t = false := by
  intro fuel
  induction fuel with
  | zero => intro i s h; exact absurd h (Nat.not_lt_zero _)
  | succ fuel ih =>
    intro i s hfuel hsome
    simp only [execAtFuel] at hsome
    by_cases hi : i ≤ w.length
    · rw [if_pos hi] at hsome
      by_cases hocc : occursAt src w i = true
      · rw [if_pos hocc] at hsome
        obtain rfl := Option.some.inj hsome
        exact ⟨hocc, Nat.le_refl _, fun t h1 h2 => absurd h1 (by omega)⟩
      · rw [if_neg hocc] at hsome
        obtain ⟨h1, h2, h3⟩ := ih (by omega) hsome
        refine ⟨h1, by omega, fun t ht1 ht2 => ?_⟩
        rcases Nat.eq_or_lt_of_le ht1 with rfl | hlt
        · simp only [Bool.not_eq_true] at hocc
          exact hocc
        · exact h3 t hlt ht2
    · rw [if_neg hi] at hsome
      exact absurd hsome (by simp)

theorem execAt_none {src w : List Char} {i : Nat}
    (h : execAt src w i = none) :
    ∀ s, i ≤ s → occursAt src w s = false := by
  unfold execAt at h
  exact execAtFuel_none (by omega) h

theorem execAt_some {src w : List Char} {i s : Nat}
    (h : execAt src w i = some s) :
    occursAt src w s = true ∧ i ≤ s ∧
      ∀ t, i ≤ t → t < s → occursAt src w t = false := by
  unfold execAt at h
  exact execAtFuel_some (by omega) h

theorem execLoopFuel_succ (fuel : Nat) (src w : List Char) (i : Nat) :
    execLoopFuel (fuel + 1) src w i =
      match execAt src w i with
      | none => some []
      | some s =>
        if i < s + src.length then
          (execLoopFuel fuel src w (s + src.length)).map fun L => s :: L
        else none := rfl

theorem matchAllFuel_succ (fuel : Nat) (src w : List Char) (i : Nat) :
    matchAllFuel (fuel + 1) src w i =
      match execAt src w i with
      | none => []
      | some s =>
        s :: matchAllFuel fuel src w
          (if src.length = 0 then s + 1 else s + src.length) := rfl

theorem execLoopFuel_succ_none {src w : List Char} {fuel i : Nat}
    (h : execAt src w i = none) :
    execLoopFuel (fuel + 1) src w i = some [] := by
  rw [execLoopFuel_succ, h]

theorem execLoopFuel_succ_some {src w : List Char} {fuel i s : Nat}
    (h : execAt src w i = some s) :
    execLoopFuel (fuel + 1) src w i =
      if i < s + src.length then
        (execLoopFuel fuel src w (s + src.length)).map fun L => s :: L
      else none := by
  rw [execLoopFuel_succ, h]

theorem matchAllFuel_succ_none {src w : List Char} {fuel i : Nat}
    (h : execAt src w i = none) :
    matchAllFuel (fuel + 1) src w i = [] := by
  rw [matchAllFuel_succ, h]

theorem matchAllFuel_succ_some {src w : List Char} {fuel i s : Nat}
    (h : execAt src w i = some s) :
    matchAllFuel (fuel + 1) src w i =
      s :: matchAllFuel fuel src w
        (if src.length = 0 then s + 1 else s + src.length) := by
  rw [matchAllFuel_succ, h]

theorem execLoopFuel_spec {src w : List Char} (hsrc : src ≠ []) :
    ∀ (fuel i : Nat), w.length + 1 - i < fuel →
      ∃ L, execLoopFuel fuel src w i = some L
        ∧ (∀ s ∈ L, occursAt src w s = true ∧ i ≤ s)
        ∧ List.Chain' (fun a b => a + src.length ≤ b) L
        ∧ (∀ q, i ≤ q → occursAt src w q = true →
            ∃ s ∈ L, s ≤ q ∧ q < s + src.length)
        ∧ (L = [] ↔ execAt src w i = none) := by
  intro fuel
  induction fuel with
  | zero => exact fun i h => absurd h (Nat.not_lt_zero _)
  | succ fuel ih =>
    intro i hfuel
    cases hexec : execAt src w i with
    | none =>
      refine ⟨[], ?_, by simp, by simp, ?_, by simp [hexec]⟩
      · simp [execLoopFuel_succ, hexec]
      · intro q hq hocc
        exact absurd (execAt_none hexec q hq) (by simp [hocc])
    | some s =>
      obtain ⟨hocc, his, hmin⟩ := execAt_some hexec
      have hlen : 0 < src.length := List.length_pos.mpr hsrc
      have hbound : s + src.length ≤ w.length := occursAt_bounds hocc
      have hprog : i < s + src.length := by omega
      obtain ⟨L, hL, hmem, hchain, hcomp, hnil⟩ :=
        ih (s + src.length) (by omega)
      refine ⟨s :: L, ?_, ?_, ?_, ?_, by simp [hexec]⟩
      · simp [execLoopFuel_succ, hexec, hprog, hL]
      · intro x hx
        rcases List.mem_cons.mp hx with rfl | hx
        · exact ⟨hocc, his⟩
        · obtain ⟨h1, h2⟩ := hmem x hx
          exact ⟨h1, by omega⟩
      · refine List.chain'_cons'.mpr ⟨fun y hy => ?_, hchain⟩
        exact (hmem y (List.mem_of_mem_head? hy)).2
      · intro q hq hocc'
        by_cases hq1 : q < s
        · exact absurd (hmin q hq hq1) (by simp [hocc'])
        · by_cases hq2 : q < s + src.length
          · exact ⟨s, by simp, by omega, hq2⟩
          · obtain ⟨x, hx, h1, h2⟩ := hcomp q (by omega) hocc'
            exact ⟨x, by simp [hx], h1, h2⟩

theorem matchAllFuel_eq_execLoopFuel {src w : List Char}
    (hlen : src.length ≠ 0) :
    ∀ (fuel : Nat) {i : Nat} {L : List Nat},
      execLoopFuel fuel src w i = some L →
      matchAllFuel fuel src w i = L := by
  intro fuel
  induction fuel with
  | zero =>
    intro i L h
    exact absurd h (by simp [execLoopFuel])
  | succ fuel ih =>
    intro i L h
    cases hexec : execAt src w i with
    | none =>
      rw [execLoopFuel_succ_none hexec] at h
      obtain rfl := Option.some.inj h
      rw [matchAllFuel_succ_none hexec]
    | some s =>
      rw [execLoopFuel_succ_some hexec] at h
      by_cases hprog : i < s + src.length
      · rw [if_pos hprog] at h
        cases hrec : execLoopFuel fuel src w (s + src.length) with
        | none => rw [hrec] at h; exact absurd h (by simp)
        | some L2 =>
          rw [hrec] at h
          obtain rfl := Option.some.inj (by simpa using h)
          rw [matchAllFuel_succ_some hexec, if_neg hlen]
          exact congrArg (s :: .) (ih hrec)
      · rw [if_neg hprog] at h
        exact absurd h (by simp)

theorem string_ne_empty_data {s : String} (h : s ≠ "") : s.data ≠ [] := by
  intro hd
  apply h
  cases s
  simp only at hd
  simp [hd]

/-- The list of non-overlapping match positions produced by the source's
`exec` collection loop when the pattern has a non-empty source: it exists,
every element is an occurrence, consecutive matches do not overlap
(strictly increasing by at least the pattern length), and every occurrence
of the pattern in the token overlaps one of the collected matches. -/
theorem execLoop_spec {src w : List Char} (hsrc : src ≠ []) :
    ∃ L, execLoop src w 0 = some L
      ∧ (∀ s ∈ L, occursAt src w s = true)
      ∧ List.Chain' (fun a b => a + src.length ≤ b) L
      ∧ (∀ q, occursAt src w q = true →
          ∃ s ∈ L, s ≤ q ∧ q < s + src.length)
      ∧ (L = [] ↔ execAt src w 0 = none) := by
  obtain ⟨L, hL, hmem, hchain, hcomp, hnil⟩ :=
    @execLoopFuel_spec src w hsrc (w.length + 2) 0 (by omega)
  exact ⟨L, hL, fun s hs => (hmem s hs).1, hchain,
    fun q hq => hcomp q (Nat.zero_le _) hq, hnil⟩

theorem matchAll_eq_of_execLoop {src w : List Char} (hsrc : src ≠ [])
    {L : List Nat} (h : execLoop src w 0 = some L) :
    matchAll src w 0 = L := by
  have hlen : src.length ≠ 0 := fun hl => hsrc (List.length_eq_zero.mp hl)
  unfold execLoop at h
  unfold matchAll
  exact matchAllFuel_eq_execLoopFuel hlen (w.length + 2) h

theorem matchAll_nil_of_none {src w : List Char}
    (h : execAt src w 0 = none) : matchAll src w 0 = [] := by
  unfold matchAll
  have h2 : w.length + 2 = (w.length + 1) + 1 := rfl
  rw [h2, matchAllFuel_succ_none h]

/-- **C3 (amended).**  For every token and every literal-source
regular-expression type: if the pattern occurs nowhere in the token, `cast`
returns `null`.  If the pattern is non-global and occurs, the result is
`{match, matches}` with `matches` empty and `match` the *first* (leftmost)
occurrence.  If the pattern is global with a non-empty source, the
collection loop terminates and `matches` holds every non-overlapping match
in input order: each listed position is a true occurrence, consecutive
positions are at least the pattern length apart (non-overlapping,
ascending), and every occurrence of the pattern in the token overlaps a
listed match.  (A global pattern that admits a zero-width match instead
makes the source's collection loop run forever — see the counterexample —
which is why the non-empty-source hypothesis is required.) -/
theorem claim3_regex_cast (p : Pattern) (word : String) :
    ((∀ s, occursAt p.source.data word.data s = false) →
        castRegex p word = CastOut.null)
    ∧ (p.global = false →
        ∀ s, execAt p.source.data word.data 0 = some s →
          castRegex p word
              = CastOut.val (.rx ⟨.one ⟨p.source, s⟩, []⟩)
            ∧ occursAt p.source.data word.data s = true
            ∧ ∀ t, t < s → occursAt p.source.data word.data t = false)
    ∧ (p.global = true → p.source ≠ "" →
        execLoop p.source.data word.data 0 ≠ none
        ∧ ∀ L, execLoop p.source.data word.data 0 = some L →
            (L = [] → castRegex p word = CastOut.null)
            ∧ (L ≠ [] → castRegex p word
                = CastOut.val (.rx ⟨.all (L.map fun _ => p.source),
                    L.map fun s => ⟨p.source, s⟩⟩))
            ∧ (∀ s ∈ L, occursAt p.source.data word.data s = true)
            ∧ List.Chain' (fun a b => a + p.source.data.length ≤ b) L
            ∧ (∀ q, occursAt p.source.data word.data q = true →
                ∃ s ∈ L, s ≤ q ∧ q < s + p.source.data.length)) := by
  refine ⟨?_, ?_, ?_⟩
  · intro hnone
    have hA : execAt p.source.data word.data 0 = none := by
      cases hE : execAt p.source.data word.data 0 with
      | none => rfl
      | some s =>
        obtain ⟨hocc, _, _⟩ := execAt_some hE
        rw [hnone s] at hocc
        exact absurd hocc (by simp)
    cases hg : p.global with
    | true =>
      have hm := matchAll_nil_of_none hA
      simp [castRegex, hg, hm]
    | false =>
      simp [castRegex, hg, hA]
  · intro hg s hE
    refine ⟨?_, (execAt_some hE).1, fun t ht => ?_⟩
    · simp [castRegex, hg, hE]
    · exact (execAt_some hE).2.2 t (Nat.zero_le _) ht
  · intro hg hs
    have hsrc : p.source.data ≠ [] := string_ne_empty_data hs
    obtain ⟨L0, hL0, hmem0, hchain0, hcomp0, hnil0⟩ :=
      @execLoop_spec p.source.data word.data hsrc
    refine ⟨by simp [hL0], ?_⟩
    intro L hL
    rw [hL0] at hL
    obtain rfl := Option.some.inj hL
    refine ⟨?_, ?_, hmem0, hchain0, hcomp0⟩
    · intro hLnil
      have hA : execAt p.source.data word.data 0 = none := hnil0.mp hLnil
      have hm := matchAll_nil_of_none hA
      simp [castRegex, hg, hm]
    · intro hLne
      have hm : matchAll p.source.data word.data 0 = L0 :=
        matchAll_eq_of_execLoop hsrc hL0
      have hie : L0.isEmpty = false := by
        cases L0 with
        | nil => exact absurd rfl hLne
        | cons a l => rfl
      simp [castRegex, hg, hm, hie, hL0]

/-- Counterexample for C3 as stated: the global pattern built from the
empty source (`new RegExp("", "g")`) *does* match the token `"b"` (second
conjunct), so the claim demands that `cast` return a `{match, matches}`
pair — but the source's `while (this.type.exec(word))` collection loop
never advances `lastIndex` past a zero-width match, so `cast` never
returns; the embedding reports exactly that as `CastOut.diverge`. -/
theorem claim3_counterexample :
    castRegex ⟨"", true⟩ "b" = CastOut.diverge
    ∧ occursAt "".data "b".data 0 = true := by
  decide

/-- Witness for C3: `/ab/g` on `"abxab"` collects both non-overlapping
occurrences in input order; `/ab/` (non-global) on `"xxabab"` yields the
first match only, with `matches` empty. -/
theorem claim3_witness :
    castRegex ⟨"ab", true⟩ "abxab"
      = CastOut.val (.rx ⟨.all ["ab", "ab"], [⟨"ab", 0⟩, ⟨"ab", 3⟩]⟩)
    ∧ castRegex ⟨"ab", false⟩ "xxabab"
      = CastOut.val (.rx ⟨.one ⟨"ab", 2⟩, []⟩) := by
  constructor
  · exact (((claim3_regex_cast ⟨"ab", true⟩ "abxab").2.2 rfl (by decide)).2
      [0, 3] (by decide)).2.1 (by decide)
  · exact (((claim3_regex_cast ⟨"ab", false⟩ "xxabab").2.1 rfl 2
      (by decide))).1

/-! ## Helper lemmas for the prompt state machine -/

/-- Project the accumulated array stored under an argument id. -/
def manyOf : Option AVal → Option (List CVal)
  | some (.many l) => some l
  | _ => none

theorem getArg_setArg (a : Args) (k : String) (v : AVal) :
    getArg (setArg a k v) k = some v := by
  simp [getArg, setArg, List.find?]

/-- `st'` extends `st`: same `args` and `active`, log extended only by
effects satisfying `P`. -/
def StExt (P : Eff → Prop) (st st' : MState) : Prop :=
  st'.args = st.args ∧ st'.active = st.active ∧
    ∃ ex, st'.log = st.log ++ ex ∧ ∀ e ∈ ex, P e

theorem stExt_refl (P : Eff → Prop) (st : MState) : StExt P st st :=
  ⟨rfl, rfl, [], by simp, by simp⟩

theorem stExt_push {P : Eff → Prop} (st : MState) {e : Eff} (h : P e) :
    StExt P st (pushEff e st) :=
  ⟨rfl, rfl, [e], rfl, by simpa⟩

theorem stExt_trans {P : Eff → Prop} {st1 st2 st3 : MState}
    (h1 : StExt P st1 st2) (h2 : StExt P st2 st3) : StExt P st1 st3 := by
  obtain ⟨a1, b1, ex1, l1, p1⟩ := h1
  obtain ⟨a2, b2, ex2, l2, p2⟩ := h2
  refine ⟨a2.trans a1, b2.trans b1, ex1 ++ ex2, ?_, ?_⟩
  · rw [l2, l1, List.append_assoc]
  · intro e he
    rcases List.mem_append.mp he with h | h
    · exact p1 e h
    · exact p2 e h

theorem stExt_mono {P Q : Eff → Prop} (h : ∀ e, P e → Q e) {st st' : MState} :
    StExt P st st' → StExt Q st st' := by
  rintro ⟨a, b, ex, l, p⟩
  exact ⟨a, b, ex, l, fun e he => h e (p e he)⟩

theorem getText_stExt (ctx : Ctx) (field : TField) (opt : TextOpt) (rc : Nat)
    (im iw : String) (st : MState) :
    StExt (fun e => e = Eff.tcall field ⟨rc, ctx.isInfinite, im, iw⟩) st
      (getText ctx field opt rc im iw st).2 := by
  cases opt with
  | undef => exact stExt_refl _ _
  | str s => exact stExt_refl _ _
  | strs l => exact stExt_refl _ _
  | fn f =>
    simp only [getText]
    cases f ctx.origMsg
        (pushEff (Eff.tcall field ⟨rc, ctx.isInfinite, im, iw⟩) st).args
        ⟨rc, ctx.isInfinite, im, iw⟩ with
    | str s => exact stExt_push st rfl
    | strs l => exact stExt_push st rfl

theorem sendIf_stExt (txt : Option String) (st : MState) :
    StExt (fun e => ∃ s, e = Eff.send s) st (sendIf txt st) := by
  cases txt with
  | none => exact stExt_refl _ _
  | some s =>
    by_cases h : s = ""
    · simp only [sendIf]
      rw [if_pos h]
      exact stExt_refl _ _
    · simp only [sendIf]
      rw [if_neg h]
      exact stExt_push st ⟨s, rfl⟩

theorem sendPhase_stExt (ctx : Ctx) (prev : String) (rc : Nat)
    (values : List CVal) (st : MState) :
    StExt (fun e => (∃ s, e = Eff.send s)
        ∨ e = Eff.tcall (if rc == 1 then TField.start else TField.retry)
            ⟨rc, ctx.isInfinite, prev, wordArg ctx prev rc⟩) st
      (sendPhase ctx prev rc values st) := by
  by_cases hrc : (rc == 1) = true
  · simp only [sendPhase, hrc, if_true]
    split
    · exact stExt_trans
        (stExt_mono (fun e he => Or.inr he) (getText_stExt ctx _ _ rc prev
          (wordArg ctx prev rc) st))
        (stExt_mono (fun e he => Or.inl he) (sendIf_stExt _ _))
    · exact stExt_refl _ _
  · simp only [Bool.not_eq_true] at hrc
    simp only [sendPhase, hrc, Bool.false_eq_true, if_false, if_true]
    exact stExt_trans
      (stExt_mono (fun e he => Or.inr he) (getText_stExt ctx _ _ rc prev
        (wordArg ctx prev rc) st))
      (stExt_mono (fun e he => Or.inl he) (sendIf_stExt _ _))

theorem registerTurn_state (rc : Nat) (st : MState) :
    (registerTurn rc st).args = st.args
    ∧ (registerTurn rc st).active = true
    ∧ (registerTurn rc st).log = st.log ++ [Eff.addPrompt rc] :=
  ⟨rfl, rfl, rfl⟩

theorem countP_stExt {P : Eff → Prop} {st st' : MState}
    (h : StExt P st st') (pred : Eff → Bool)
    (hp : ∀ e, P e → pred e = false) :
    st'.log.countP pred = st.log.countP pred := by
  obtain ⟨-, -, ex, hlog, hex⟩ := h
  rw [hlog, List.countP_append]
  have hz : ex.countP pred = 0 := by
    rw [List.countP_eq_zero]
    intro e he
    simp [hp e (hex e he)]
  omega

theorem promptOne_nil (ctx : Ctx) (prev : String) (rc : Nat)
    (values : List CVal) (st : MState) :
    promptOne ctx [] prev rc values st =
      ((finishTimeout ctx prev rc
          (sendPhase ctx prev rc values (registerTurn rc st))).1,
       (finishTimeout ctx prev rc
          (sendPhase ctx prev rc values (registerTurn rc st))).2, []) := rfl

theorem promptOne_cons (ctx : Ctx) (ev : Event) (rest : List Event)
    (prev : String) (rc : Nat) (values : List CVal) (st : MState) :
    promptOne ctx (ev :: rest) prev rc values st =
      match promptStep ctx ev prev rc values
          (sendPhase ctx prev rc values (registerTurn rc st)) with
      | .done out st2 => (out, st2, rest)
      | .again p r v s => promptOne ctx rest p r v s := rfl

theorem pushEff_args (e : Eff) (st : MState) :
    (pushEff e st).args = st.args := rfl

theorem pushEff_active (e : Eff) (st : MState) :
    (pushEff e st).active = st.active := rfl

theorem pushEff_log (e : Eff) (st : MState) :
    (pushEff e st).log = st.log ++ [e] := rfl

theorem promptStep_timeout (ctx : Ctx) (prev : String) (rc : Nat)
    (values : List CVal) (st : MState) :
    promptStep ctx .timeout prev rc values st =
      .done (finishTimeout ctx prev rc st).1 (finishTimeout ctx prev rc st).2 :=
  rfl

theorem promptStep_fail (ctx : Ctx) (code : Nat) (prev : String) (rc : Nat)
    (values : List CVal) (st : MState) :
    promptStep ctx (.fail code) prev rc values st =
      .done (.failure code) st := rfl

theorem promptStep_cancel (ctx : Ctx) (prev r : String) (rc : Nat)
    (values : List CVal) (st : MState)
    (hr : (jsToLower r == jsToLower ctx.cfg.cancelWord) = true) :
    promptStep ctx (.reply r) prev rc values st =
      .done .cancelled
        (pushEff .removePrompt
          { sendIf (getText ctx .cancel ctx.cfg.cancel rc r "" st).1
              (getText ctx .cancel ctx.cfg.cancel rc r "" st).2 with
            active := false }) := by
  simp only [promptStep, hr, if_true]

theorem promptStep_stop_empty (ctx : Ctx) (prev r : String) (rc : Nat)
    (values : List CVal) (st : MState)
    (hinf : ctx.isInfinite = true)
    (hnc : (jsToLower r == jsToLower ctx.cfg.cancelWord) = false)
    (hst : (jsToLower r == jsToLower ctx.cfg.stopWord) = true)
    (hv : values.isEmpty = true) :
    promptStep ctx (.reply r) prev rc values st =
      .again r (rc + 1) values st := by
  simp only [promptStep, hnc, hst, hinf, hv, Bool.false_eq_true, if_false,
    Bool.and_self, if_true]

theorem promptStep_stop_full (ctx : Ctx) (prev r : String) (rc : Nat)
    (values : List CVal) (st : MState)
    (hinf : ctx.isInfinite = true)
    (hnc : (jsToLower r == jsToLower ctx.cfg.cancelWord) = false)
    (hst : (jsToLower r == jsToLower ctx.cfg.stopWord) = true)
    (hv : values.isEmpty = false) :
    promptStep ctx (.reply r) prev rc values st =
      .done (.values values) st := by
  simp only [promptStep, hnc, hst, hinf, hv, Bool.false_eq_true, if_false,
    Bool.and_self, if_true]

theorem promptStep_cast_null (ctx : Ctx) (prev r : String) (rc : Nat)
    (values : List CVal) (st : MState)
    (hnc : (jsToLower r == jsToLower ctx.cfg.cancelWord) = false)
    (hst : (ctx.isInfinite && (jsToLower r == jsToLower ctx.cfg.stopWord))
        = false)
    (hc : cast ctx.resolver ctx.ty r r st.args = .null) :
    promptStep ctx (.reply r) prev rc values st =
      .again r (rc + 1) values (pushEff (.castCall r st.args) st) := by
  simp only [promptStep, hnc, hst, Bool.false_eq_true, if_false,
    pushEff_args, hc]

theorem promptStep_cast_val_fin (ctx : Ctx) (prev r : String) (rc : Nat)
    (values : List CVal) (st : MState) (v : CVal)
    (hnc : (jsToLower r == jsToLower ctx.cfg.cancelWord) = false)
    (hinf : ctx.isInfinite = false)
    (hc : cast ctx.resolver ctx.ty r r st.args = .val v) :
    promptStep ctx (.reply r) prev rc values st =
      .done (.value v) (pushEff (.castCall r st.args) st) := by
  simp only [promptStep, hnc, hinf, Bool.false_eq_true, if_false,
    pushEff_args, hc, Bool.false_and]

theorem promptStep_cast_val_cont (ctx : Ctx) (prev r : String) (rc : Nat)
    (values : List CVal) (st : MState) (v : CVal)
    (hnc : (jsToLower r == jsToLower ctx.cfg.cancelWord) = false)
    (hst : (jsToLower r == jsToLower ctx.cfg.stopWord) = false)
    (hinf : ctx.isInfinite = true)
    (hc : cast ctx.resolver ctx.ty r r st.args = .val v)
    (hlim : (match ctx.cfg.limit with
             | none => true
             | some n => decide ((values ++ [v]).length < n)) = true) :
    promptStep ctx (.reply r) prev rc values st =
      .again ctx.origMsg 1 (values ++ [v])
        ⟨setArg st.args ctx.id (.many (values ++ [v])), st.active,
         st.log ++ [Eff.castCall r st.args]⟩ := by
  simp only [promptStep, hnc, hst, hinf, Bool.false_eq_true, Bool.and_false,
    if_false, pushEff_args, pushEff_active, pushEff_log, hc, if_true, hlim]

theorem promptStep_cast_val_done (ctx : Ctx) (prev r : String) (rc : Nat)
    (values : List CVal) (st : MState) (v : CVal)
    (hnc : (jsToLower r == jsToLower ctx.cfg.cancelWord) = false)
    (hst : (jsToLower r == jsToLower ctx.cfg.stopWord) = false)
    (hinf : ctx.isInfinite = true)
    (hc : cast ctx.resolver ctx.ty r r st.args = .val v)
    (hlim : (match ctx.cfg.limit with
             | none => true
             | some n => decide ((values ++ [v]).length < n)) = false) :
    promptStep ctx (.reply r) prev rc values st =
      .done (.values (values ++ [v]))
        ⟨setArg st.args ctx.id (.many (values ++ [v])), st.active,
         st.log ++ [Eff.castCall r st.args]⟩ := by
  simp only [promptStep, hnc, hst, hinf, Bool.false_eq_true, Bool.and_false,
    if_false, pushEff_args, pushEff_active, pushEff_log, hc, if_true, hlim]

theorem withActive_log (st : MState) (b : Bool) :
    ({ st with active := b } : MState).log = st.log := rfl

theorem countP_push (e : Eff) (st : MState) (pred : Eff → Bool) :
    (pushEff e st).log.countP pred
      = st.log.countP pred + (if pred e then 1 else 0) := by
  simp [pushEff, List.countP_append, List.countP_cons]

/-! ## Demo instances used by the witnesses -/

def wResolver : Resolver := fun _ => none

def wPromptBase : PromptOpts :=
  ⟨1, 30000, "cancel", "stop", false, false, none,
   .undef, .undef, .undef, .undef, .undef⟩

def wArgOptional : ArgSpec :=
  ⟨"arg", .word, .choices [.str "ok"],
   some { wPromptBase with optional := true }, fun _ _ => .str "dflt"⟩

def wCfgInf1 : PromptOpts := { wPromptBase with infinite := true, limit := some 1 }

def wCfgInf3 : PromptOpts := { wPromptBase with infinite := true, limit := some 3 }

def wCtx : Ctx :=
  ⟨{ wPromptBase with infinite := true, limit := some 1 },
   .fn fun w _ _ => some (.str w), wResolver, "orig", "", true, "arg"⟩

/-! ## C4: optional prompt with empty token -/

/-- **C4.**  When the trimmed token is empty and a prompt is configured
with `optional = true`, `process` returns exactly the resolved default
value; the returned machine state carries an empty effect log (so the
transport's send operation was never invoked) and the event script is
returned untouched (so the transport's await-reply operation was never
invoked). -/
theorem claim4_optional_empty_default (a : ArgSpec) (resolver : Resolver)
    (word origMsg : String) (args : Args) (script : List Event)
    (cfg : PromptOpts) (htrim : jsTrim word = "") (hp : a.prompt = some cfg)
    (hopt : cfg.optional = true) :
    process a resolver word origMsg args script
      = (.value (a.dflt origMsg args), ⟨args, false, []⟩, script) := by
  simp [process, htrim, hp, hopt]

/-- Witness for C4: a whitespace-only token with an `optional` prompt
yields the default value, an empty effect log, and an untouched script. -/
theorem claim4_witness :
    process wArgOptional wResolver "   " "orig" [] [.reply "zz"]
      = (.value (.str "dflt"), ⟨[], false, []⟩, [.reply "zz"]) :=
  claim4_optional_empty_default wArgOptional wResolver "   " "orig" []
    [.reply "zz"] { wPromptBase with optional := true } (by decide) rfl rfl

/-! ## C8: genuine errors are re-raised unchanged -/

/-- **C8.**  A genuine `Error` raised while awaiting a turn's reply (for
example a transport failure — anything that is neither the collector
timeout nor the cancellation sentinel) is re-raised unchanged on any turn:
the session ends with exactly that failure (so it is neither converted to
the cancellation signal nor to a null cast result), no further event is
consumed, and — unlike the timeout path — no deregistration is recorded
(the `err instanceof Error` rethrow at line 470 precedes the cleanup). -/
theorem claim8_error_reraised (ctx : Ctx) (rest : List Event) (code : Nat)
    (prev : String) (rc : Nat) (values : List CVal) (st : MState) :
    promptOne ctx (.fail code :: rest) prev rc values st
      = (.failure code,
         sendPhase ctx prev rc values (registerTurn rc st), rest)
    ∧ Outcome.failure code ≠ Outcome.cancelled
    ∧ (promptOne ctx (.fail code :: rest) prev rc values st).2.1.log.countP
        (fun e => e == Eff.removePrompt)
      = st.log.countP (fun e => e == Eff.removePrompt) := by
  refine ⟨rfl, by simp, ?_⟩
  have h2 := countP_stExt (sendPhase_stExt ctx prev rc values
      (registerTurn rc st)) (fun e => e == Eff.removePrompt)
    (by rintro e (⟨s, rfl⟩ | rfl) <;> rfl)
  show (sendPhase ctx prev rc values (registerTurn rc st)).log.countP _ = _
  rw [h2, (registerTurn_state rc st).2.2, List.countP_append]
  simp

/-! ## C7: the cancel word -/

/-- **C7.**  On any turn of a prompt session (any retry count, any
accumulated values), a reply whose content case-insensitively equals the
configured cancel word ends the whole session with the cancellation signal
(exactly one outcome, produced on this turn: nothing further of the script
is consumed), and afterwards the active-prompt registry no longer contains
the prompting context (`active = false`), exactly one deregistration having
been recorded. -/
theorem claim7_cancel_word (ctx : Ctx) (rest : List Event) (r prev : String)
    (rc : Nat) (values : List CVal) (st : MState)
    (hr : jsToLower r = jsToLower ctx.cfg.cancelWord) :
    (promptOne ctx (.reply r :: rest) prev rc values st).1 = .cancelled
    ∧ (promptOne ctx (.reply r :: rest) prev rc values st).2.1.active = false
    ∧ (promptOne ctx (.reply r :: rest) prev rc values st).2.2 = rest
    ∧ (promptOne ctx (.reply r :: rest) prev rc values st).2.1.log.countP
        (fun e => e == Eff.removePrompt)
      = st.log.countP (fun e => e == Eff.removePrompt) + 1 := by
  have hr' : (jsToLower r == jsToLower ctx.cfg.cancelWord) = true := by
    simp [hr]
  rw [promptOne_cons, promptStep_cancel _ _ _ _ _ _ hr']
  refine ⟨rfl, rfl, rfl, ?_⟩
  show (pushEff Eff.removePrompt _).log.countP _ = _
  rw [countP_push]
  have h0 := countP_stExt (sendPhase_stExt ctx prev rc values
      (registerTurn rc st)) (fun e => e == Eff.removePrompt)
    (by rintro e (⟨s, rfl⟩ | rfl) <;> rfl)
  have h1 := countP_stExt (getText_stExt ctx .cancel ctx.cfg.cancel rc r ""
      (sendPhase ctx prev rc values (registerTurn rc st)))
    (fun e => e == Eff.removePrompt) (by rintro e rfl; rfl)
  have h2 := countP_stExt (sendIf_stExt
      (getText ctx .cancel ctx.cfg.cancel rc r ""
        (sendPhase ctx prev rc values (registerTurn rc st))).1
      (getText ctx .cancel ctx.cfg.cancel rc r ""
        (sendPhase ctx prev rc values (registerTurn rc st))).2)
    (fun e => e == Eff.removePrompt) (by rintro e ⟨s, rfl⟩; rfl)
  rw [withActive_log, h2, h1, h0, (registerTurn_state rc st).2.2,
    List.countP_append]
  simp

/-! ## C6: the stop word in infinite mode -/

/-- **C6.**  In infinite mode a reply that case-insensitively equals the
stop word (and is not the cancel word, which is checked first) behaves in
two ways.  While the accumulated sequence is still empty it is treated as
ordinary invalid input: the session does not terminate but continues as a
retry turn with `retryCount + 1` on the remaining script.  As soon as at
least one value has been accumulated, the same reply terminates the
session immediately, returning the accumulated sequence and consuming
nothing further. -/
theorem claim6_stop_word (ctx : Ctx) (rest : List Event) (r prev : String)
    (rc : Nat) (values : List CVal) (st : MState)
    (hinf : ctx.isInfinite = true)
    (hst : jsToLower r = jsToLower ctx.cfg.stopWord)
    (hnc : jsToLower r ≠ jsToLower ctx.cfg.cancelWord) :
    (values = [] →
      promptOne ctx (.reply r :: rest) prev rc values st
        = promptOne ctx rest r (rc + 1) values
            (sendPhase ctx prev rc values (registerTurn rc st)))
    ∧ (values ≠ [] →
      promptOne ctx (.reply r :: rest) prev rc values st
        = (.values values,
           sendPhase ctx prev rc values (registerTurn rc st), rest)) := by
  have hst' : (jsToLower r == jsToLower ctx.cfg.stopWord) = true := by
    simp [hst]
  have hnc' : (jsToLower r == jsToLower ctx.cfg.cancelWord) = false := by
    rw [beq_eq_false_iff_ne]
    exact hnc
  constructor
  · intro hv
    rw [promptOne_cons,
      promptStep_stop_empty _ _ _ _ _ _ hinf hnc' hst' (by simp [hv])]
  · intro hv
    rw [promptOne_cons,
      promptStep_stop_full _ _ _ _ _ _ hinf hnc' hst'
        (by cases values with
            | nil => exact absurd rfl hv
            | cons a l => rfl)]

/-- Witness for C6: with nothing accumulated, `"STOP"` (checked
case-insensitively) starts a retry turn and the session goes on to consume
the rest of the script; with one value accumulated, `"stop"` terminates
immediately with the sequence. -/
theorem claim6_witness :
    promptOne wCtx [.reply "STOP", .reply "a"] "orig" 1 []
        ⟨[("arg", .many [])], false, []⟩
      = promptOne wCtx [.reply "a"] "STOP" 2 []
          (sendPhase wCtx "orig" 1 []
            (registerTurn 1 ⟨[("arg", .many [])], false, []⟩))
    ∧ promptOne wCtx [.reply "stop"] "orig" 1 [.str "a"]
        ⟨[("arg", .many [.str "a"])], false, []⟩
      = (.values [.str "a"],
         sendPhase wCtx "orig" 1 [.str "a"]
           (registerTurn 1 ⟨[("arg", .many [.str "a"])], false, []⟩), []) :=
  ⟨(claim6_stop_word wCtx [.reply "a"] "STOP" "orig" 1 []
      ⟨[("arg", .many [])], false, []⟩ rfl (by decide) (by decide)).1 rfl,
   (claim6_stop_word wCtx [] "stop" "orig" 1 [.str "a"]
      ⟨[("arg", .many [.str "a"])], false, []⟩ rfl (by decide)
      (by decide)).2 (by decide)⟩

/-- Witness for C7: the cancel word (upper-cased, at a retry turn, with a
value already accumulated) cancels, deregisters, and consumes nothing
further. -/
theorem claim7_witness :
    (promptOne wCtx [.reply "CANCEL", .reply "x"] "orig" 2 [.str "a"]
        ⟨[("arg", .many [.str "a"])], false, []⟩).1 = .cancelled
    ∧ (promptOne wCtx [.reply "CANCEL", .reply "x"] "orig" 2 [.str "a"]
        ⟨[("arg", .many [.str "a"])], false, []⟩).2.1.active = false
    ∧ (promptOne wCtx [.reply "CANCEL", .reply "x"] "orig" 2 [.str "a"]
        ⟨[("arg", .many [.str "a"])], false, []⟩).2.2 = [.reply "x"]
    ∧ (promptOne wCtx [.reply "CANCEL", .reply "x"] "orig" 2 [.str "a"]
        ⟨[("arg", .many [.str "a"])], false, []⟩).2.1.log.countP
          (fun e => e == Eff.removePrompt) = 0 + 1 :=
  claim7_cancel_word wCtx [.reply "x"] "CANCEL" "orig" 2 [.str "a"]
    ⟨[("arg", .many [.str "a"])], false, []⟩ (by decide)

/-! ## C5: infinite prompt with limit 3 -/

/-- Whether an effect is a turn registration (`addPrompt`): counting these
counts the prompting turns that were started. -/
def isAddPromptEff : Eff → Bool
  | .addPrompt _ => true
  | _ => false

theorem countAdd_turn (ctx : Ctx) (prev : String) (rc : Nat)
    (values : List CVal) (st : MState) :
    (sendPhase ctx prev rc values (registerTurn rc st)).log.countP
        isAddPromptEff
      = st.log.countP isAddPromptEff + 1 := by
  have h2 := countP_stExt (sendPhase_stExt ctx prev rc values
      (registerTurn rc st)) isAddPromptEff
    (by rintro e (⟨s, rfl⟩ | rfl) <;> rfl)
  rw [h2, (registerTurn_state rc st).2.2, List.countP_append]
  simp [isAddPromptEff]

/-- Three turns of an infinite session with `limit = 3`, starting from an
empty accumulation: three replies that all cast successfully (and are
neither the cancel nor the stop word) produce the sequence of the three
cast values in arrival order, leave the rest of the script unconsumed, and
start exactly three prompting turns. -/
theorem promptOne_three_good (ctx : Ctx) (rest : List Event)
    (r1 r2 r3 prev : String) (rc : Nat) (st : MState) (v1 v2 v3 : CVal)
    (hinf : ctx.isInfinite = true)
    (hlim : ctx.cfg.limit = some 3)
    (hc1 : ∀ a : Args, cast ctx.resolver ctx.ty r1 r1 a = .val v1)
    (hc2 : ∀ a : Args, cast ctx.resolver ctx.ty r2 r2 a = .val v2)
    (hc3 : ∀ a : Args, cast ctx.resolver ctx.ty r3 r3 a = .val v3)
    (hn1 : jsToLower r1 ≠ jsToLower ctx.cfg.cancelWord)
    (hn2 : jsToLower r2 ≠ jsToLower ctx.cfg.cancelWord)
    (hn3 : jsToLower r3 ≠ jsToLower ctx.cfg.cancelWord)
    (hs1 : jsToLower r1 ≠ jsToLower ctx.cfg.stopWord)
    (hs2 : jsToLower r2 ≠ jsToLower ctx.cfg.stopWord)
    (hs3 : jsToLower r3 ≠ jsToLower ctx.cfg.stopWord) :
    (promptOne ctx (.reply r1 :: .reply r2 :: .reply r3 :: rest)
        prev rc [] st).1 = .values [v1, v2, v3]
    ∧ (promptOne ctx (.reply r1 :: .reply r2 :: .reply r3 :: rest)
        prev rc [] st).2.2 = rest
    ∧ (promptOne ctx (.reply r1 :: .reply r2 :: .reply r3 :: rest)
        prev rc [] st).2.1.log.countP isAddPromptEff
      = st.log.countP isAddPromptEff + 3 := by
  have hn1' : (jsToLower r1 == jsToLower ctx.cfg.cancelWord) = false := by
    rw [beq_eq_false_iff_ne]; exact hn1
  have hn2' : (jsToLower r2 == jsToLower ctx.cfg.cancelWord) = false := by
    rw [beq_eq_false_iff_ne]; exact hn2
  have hn3' : (jsToLower r3 == jsToLower ctx.cfg.cancelWord) = false := by
    rw [beq_eq_false_iff_ne]; exact hn3
  have hs1' : (jsToLower r1 == jsToLower ctx.cfg.stopWord) = false := by
    rw [beq_eq_false_iff_ne]; exact hs1
  have hs2' : (jsToLower r2 == jsToLower ctx.cfg.stopWord) = false := by
    rw [beq_eq_false_iff_ne]; exact hs2
  have hs3' : (jsToLower r3 == jsToLower ctx.cfg.stopWord) = false := by
    rw [beq_eq_false_iff_ne]; exact hs3
  rw [promptOne_cons,
    promptStep_cast_val_cont ctx prev r1 rc [] _ v1 hn1' hs1' hinf (hc1 _)
      (by simp [hlim])]
  simp only [List.nil_append, List.cons_append]
  rw [promptOne_cons,
    promptStep_cast_val_cont ctx ctx.origMsg r2 1 [v1] _ v2 hn2' hs2' hinf
      (hc2 _) (by simp [hlim])]
  simp only [List.nil_append, List.cons_append]
  rw [promptOne_cons,
    promptStep_cast_val_done ctx ctx.origMsg r3 1 [v1, v2] _ v3 hn3' hs3'
      hinf (hc3 _) (by simp [hlim])]
  simp only [List.nil_append, List.cons_append]
  refine ⟨trivial, trivial, ?_⟩
  show (List.countP _ (_ ++ [Eff.castCall r3 _]))  = _
  rw [List.countP_append, countAdd_turn]
  show List.countP _ (_ ++ [Eff.castCall r2 _]) + 1 + _ = _
  rw [List.countP_append, countAdd_turn]
  show List.countP _ (_ ++ [Eff.castCall r1 _]) + 1 + _ + 1 + _ = _
  rw [List.countP_append, countAdd_turn]
  simp [isAddPromptEff]

/-- **C5.**  In an effectively infinite prompt session with `limit = 3`,
three successive replies that each cast successfully (and are neither the
cancel nor the stop word) yield the returned sequence of exactly the 3
cast values in arrival order; nothing of the script beyond the third reply
is consumed, and exactly 3 prompting turns are started (no fourth turn
after the third successful cast). -/
theorem claim5_infinite_limit3 (cfg : PromptOpts) (ty : TypeSpec)
    (resolver : Resolver) (matchType : MatchType)
    (id origMsg commandInput : String) (args : Args) (rest : List Event)
    (r1 r2 r3 : String) (v1 v2 v3 : CVal)
    (hinf : isInf cfg matchType commandInput = true)
    (hlim : cfg.limit = some 3)
    (hc1 : ∀ a : Args, cast resolver ty r1 r1 a = .val v1)
    (hc2 : ∀ a : Args, cast resolver ty r2 r2 a = .val v2)
    (hc3 : ∀ a : Args, cast resolver ty r3 r3 a = .val v3)
    (hn1 : jsToLower r1 ≠ jsToLower cfg.cancelWord)
    (hn2 : jsToLower r2 ≠ jsToLower cfg.cancelWord)
    (hn3 : jsToLower r3 ≠ jsToLower cfg.cancelWord)
    (hs1 : jsToLower r1 ≠ jsToLower cfg.stopWord)
    (hs2 : jsToLower r2 ≠ jsToLower cfg.stopWord)
    (hs3 : jsToLower r3 ≠ jsToLower cfg.stopWord) :
    (collect cfg ty resolver matchType id origMsg args commandInput
        (.reply r1 :: .reply r2 :: .reply r3 :: rest)).1
      = .values [v1, v2, v3]
    ∧ (collect cfg ty resolver matchType id origMsg args commandInput
        (.reply r1 :: .reply r2 :: .reply r3 :: rest)).2.2 = rest
    ∧ (collect cfg ty resolver matchType id origMsg args commandInput
        (.reply r1 :: .reply r2 :: .reply r3 :: rest)).2.1.log.countP
          isAddPromptEff = 3 := by
  simp only [collect, hinf, if_true]
  have h := promptOne_three_good
    ⟨cfg, ty, resolver, origMsg, commandInput, true, id⟩ rest r1 r2 r3
    origMsg (1 + if commandInput ≠ "" then 1 else 0)
    ⟨setArg args id (.many []), false, []⟩ v1 v2 v3 rfl hlim
    hc1 hc2 hc3 hn1 hn2 hn3 hs1 hs2 hs3
  rw [h.1]
  refine ⟨rfl, h.2.1, ?_⟩
  rw [countP_push, withActive_log, h.2.2]
  simp [isAddPromptEff]

/-- Witness for C5: an infinite prompt with `limit = 3` and an
identity-style casting function consumes exactly the three replies `"a"`,
`"b"`, `"c"`, returns them in order, and starts exactly 3 turns. -/
theorem claim5_witness :
    (collect { wPromptBase with infinite := true, limit := some 3 }
        (.fn fun w _ _ => some (.str w)) wResolver .word "arg" "orig" [] ""
        [.reply "a", .reply "b", .reply "c", .reply "d"]).1
      = .values [.str "a", .str "b", .str "c"]
    ∧ (collect { wPromptBase with infinite := true, limit := some 3 }
        (.fn fun w _ _ => some (.str w)) wResolver .word "arg" "orig" [] ""
        [.reply "a", .reply "b", .reply "c", .reply "d"]).2.2
      = [.reply "d"]
    ∧ (collect { wPromptBase with infinite := true, limit := some 3 }
        (.fn fun w _ _ => some (.str w)) wResolver .word "arg" "orig" [] ""
        [.reply "a", .reply "b", .reply "c", .reply "d"]).2.1.log.countP
          isAddPromptEff = 3 :=
  claim5_infinite_limit3 { wPromptBase with infinite := true, limit := some 3 }
    (.fn fun w _ _ => some (.str w)) wResolver .word "arg" "orig" "" []
    [.reply "d"] "a" "b" "c" (.str "a") (.str "b") (.str "c")
    rfl rfl (fun _ => rfl) (fun _ => rfl) (fun _ => rfl)
    (by decide) (by decide) (by decide) (by decide) (by decide) (by decide)

/-! ## C10: the accumulated values array lives in `args` -/

theorem promptStep_cast_diverge (ctx : Ctx) (prev r : String) (rc : Nat)
    (values : List CVal) (st : MState)
    (hnc : (jsToLower r == jsToLower ctx.cfg.cancelWord) = false)
    (hst : (ctx.isInfinite && (jsToLower r == jsToLower ctx.cfg.stopWord))
        = false)
    (hc : cast ctx.resolver ctx.ty r r st.args = .diverge) :
    promptStep ctx (.reply r) prev rc values st =
      .done .hung (pushEff (.castCall r st.args) st) := by
  simp only [promptStep, hnc, hst, Bool.false_eq_true, if_false,
    pushEff_args, hc]

theorem finishTimeout_fst (ctx : Ctx) (prev : String) (rc : Nat)
    (st : MState) : (finishTimeout ctx prev rc st).1 = .cancelled := rfl

theorem finishTimeout_snd (ctx : Ctx) (prev : String) (rc : Nat)
    (st : MState) :
    (finishTimeout ctx prev rc st).2
      = pushEff Eff.removePrompt
          { sendIf (getText ctx .timeout ctx.cfg.timeout rc prev "" st).1
              (getText ctx .timeout ctx.cfg.timeout rc prev "" st).2 with
            active := false } := rfl

theorem closePhase_stExt (ctx : Ctx) (field : TField) (opt : TextOpt)
    (rc : Nat) (im iw : String) (st : MState) :
    StExt (fun e => (∃ s, e = Eff.send s)
        ∨ e = Eff.tcall field ⟨rc, ctx.isInfinite, im, iw⟩) st
      (sendIf (getText ctx field opt rc im iw st).1
        (getText ctx field opt rc im iw st).2) :=
  stExt_trans
    (stExt_mono (fun _ he => Or.inr he) (getText_stExt ctx field opt rc im iw st))
    (stExt_mono (fun _ he => Or.inl he) (sendIf_stExt _ _))

theorem castOK_stExt {P : Eff → Prop} {st st' : MState}
    (h : StExt P st st') (id : String)
    (hp : ∀ e, P e → ∀ w a, e ≠ Eff.castCall w a)
    (hc : ∀ w a, Eff.castCall w a ∈ st.log → (manyOf (getArg a id)).isSome) :
    ∀ w a, Eff.castCall w a ∈ st'.log → (manyOf (getArg a id)).isSome := by
  obtain ⟨-, -, ex, hlog, hex⟩ := h
  intro w a hmem
  rw [hlog] at hmem
  rcases List.mem_append.mp hmem with hm | hm
  · exact hc w a hm
  · exact absurd rfl (hp _ (hex _ hm) w a)

theorem turnState_args (ctx : Ctx) (prev : String) (rc : Nat)
    (values : List CVal) (st : MState) :
    (sendPhase ctx prev rc values (registerTurn rc st)).args = st.args :=
  (sendPhase_stExt ctx prev rc values (registerTurn rc st)).1

theorem turnState_castOK (ctx : Ctx) (prev : String) (rc : Nat)
    (values : List CVal) (st : MState) (id : String)
    (hc : ∀ w a, Eff.castCall w a ∈ st.log → (manyOf (getArg a id)).isSome) :
    ∀ w a, Eff.castCall w a ∈
        (sendPhase ctx prev rc values (registerTurn rc st)).log →
      (manyOf (getArg a id)).isSome := by
  refine castOK_stExt (sendPhase_stExt ctx prev rc values (registerTurn rc st))
    id (by rintro e (⟨s, rfl⟩ | rfl) w a <;> simp) ?_
  intro w a hm
  rw [(registerTurn_state rc st).2.2] at hm
  rcases List.mem_append.mp hm with hm | hm
  · exact hc w a hm
  · simp at hm

theorem closeOut_args (ctx : Ctx) (field : TField) (opt : TextOpt) (rc : Nat)
    (im iw : String) (st : MState) :
    (pushEff Eff.removePrompt
      { sendIf (getText ctx field opt rc im iw st).1
          (getText ctx field opt rc im iw st).2 with active := false }).args
      = st.args :=
  (closePhase_stExt ctx field opt rc im iw st).1

theorem closeOut_castOK (ctx : Ctx) (field : TField) (opt : TextOpt)
    (rc : Nat) (im iw : String) (st : MState) (id : String)
    (hc : ∀ w a, Eff.castCall w a ∈ st.log → (manyOf (getArg a id)).isSome) :
    ∀ w a, Eff.castCall w a ∈ (pushEff Eff.removePrompt
      { sendIf (getText ctx field opt rc im iw st).1
          (getText ctx field opt rc im iw st).2 with active := false }).log →
      (manyOf (getArg a id)).isSome := by
  intro w a hm
  rw [pushEff_log, withActive_log] at hm
  rcases List.mem_append.mp hm with hm | hm
  · exact castOK_stExt (closePhase_stExt ctx field opt rc im iw st) id
      (by rintro e (⟨s, rfl⟩ | rfl) w2 a2 <;> simp) hc w a hm
  · simp at hm

/-- Throughout a session, the accumulated values of an infinite prompt are
kept in the `args` object under the argument's id (in sync with the local
`values`), every `cast` call observes an `args` containing the accumulated
array, and the binding persists in the final state of every terminal
outcome (including cancellation and timeout, which skip the post-loop
cleanup). -/
theorem promptOne_args_inv (ctx : Ctx) :
    ∀ (script : List Event) (prev : String) (rc : Nat) (values : List CVal)
      (st : MState),
      manyOf (getArg st.args ctx.id) = some values →
      (∀ w a, Eff.castCall w a ∈ st.log → (manyOf (getArg a ctx.id)).isSome) →
      ((manyOf (getArg (promptOne ctx script prev rc values st).2.1.args
          ctx.id)).isSome
        ∧ ∀ vs', (promptOne ctx script prev rc values st).1 = .values vs' →
            manyOf (getArg (promptOne ctx script prev rc values st).2.1.args
              ctx.id) = some vs')
      ∧ ∀ w a, Eff.castCall w a ∈
            (promptOne ctx script prev rc values st).2.1.log →
          (manyOf (getArg a ctx.id)).isSome := by
  intro script
  induction script with
  | nil =>
    intro prev rc values st h1 h2
    rw [promptOne_nil]
    dsimp only
    rw [finishTimeout_snd]
    refine ⟨⟨?_, ?_⟩, ?_⟩
    · rw [closeOut_args, turnState_args, h1]
      rfl
    · intro vs' hv
      simp [finishTimeout_fst] at hv
    · exact closeOut_castOK _ _ _ _ _ _ _ ctx.id
        (turnState_castOK _ _ _ _ _ ctx.id h2)
  | cons ev rest ih =>
    intro prev rc values st h1 h2
    have hA1 : (sendPhase ctx prev rc values (registerTurn rc st)).args
        = st.args := turnState_args ctx prev rc values st
    have hC1 := turnState_castOK ctx prev rc values st ctx.id h2
    rw [promptOne_cons]
    cases ev with
    | timeout =>
      rw [promptStep_timeout]
      dsimp only
      rw [finishTimeout_snd]
      refine ⟨⟨?_, ?_⟩, ?_⟩
      · rw [closeOut_args, hA1, h1]
        rfl
      · intro vs' hv
        simp [finishTimeout_fst] at hv
      · exact closeOut_castOK _ _ _ _ _ _ _ ctx.id hC1
    | fail code =>
      rw [promptStep_fail]
      dsimp only
      refine ⟨⟨?_, ?_⟩, ?_⟩
      · rw [hA1, h1]
        rfl
      · intro vs' hv
        simp at hv
      · exact hC1
    | reply c =>
      by_cases hcan : (jsToLower c == jsToLower ctx.cfg.cancelWord) = true
      · rw [promptStep_cancel _ _ _ _ _ _ hcan]
        dsimp only
        refine ⟨⟨?_, ?_⟩, ?_⟩
        · rw [closeOut_args, hA1, h1]
          rfl
        · intro vs' hv
          simp at hv
        · exact closeOut_castOK _ _ _ _ _ _ _ ctx.id hC1
      · have hcan' : (jsToLower c == jsToLower ctx.cfg.cancelWord) = false := by
          simpa using hcan
        by_cases hstop : (ctx.isInfinite
            && (jsToLower c == jsToLower ctx.cfg.stopWord)) = true
        · have hh : ctx.isInfinite = true
              ∧ (jsToLower c == jsToLower ctx.cfg.stopWord) = true := by
            simpa using hstop
          obtain ⟨hinf, hst⟩ := hh
          by_cases hv : values.isEmpty = true
          · rw [promptStep_stop_empty _ _ _ _ _ _ hinf hcan' hst hv]
            dsimp only
            exact ih c (rc + 1) values _ (by rw [hA1]; exact h1) hC1
          · have hv' : values.isEmpty = false := by simpa using hv
            rw [promptStep_stop_full _ _ _ _ _ _ hinf hcan' hst hv']
            dsimp only
            refine ⟨⟨?_, ?_⟩, ?_⟩
            · rw [hA1, h1]
              rfl
            · intro vs' hvs
              cases hvs
              rw [hA1]
              exact h1
            · exact hC1
        · have hstop' : (ctx.isInfinite
              && (jsToLower c == jsToLower ctx.cfg.stopWord)) = false := by
            simpa using hstop
          cases hcast : cast ctx.resolver ctx.ty c c
              (sendPhase ctx prev rc values (registerTurn rc st)).args with
          | null =>
            rw [promptStep_cast_null _ _ _ _ _ _ hcan' hstop' hcast]
            dsimp only
            refine ih c (rc + 1) values _ ?_ ?_
            · rw [pushEff_args, hA1]
              exact h1
            · intro w a hm
              rw [pushEff_log] at hm
              rcases List.mem_append.mp hm with hm | hm
              · exact hC1 w a hm
              · simp only [List.mem_singleton, Eff.castCall.injEq] at hm
                obtain ⟨-, rfl⟩ := hm
                rw [hA1, h1]
                rfl
          | diverge =>
            rw [promptStep_cast_diverge _ _ _ _ _ _ hcan' hstop' hcast]
            dsimp only
            refine ⟨⟨?_, ?_⟩, ?_⟩
            · rw [pushEff_args, hA1, h1]
              rfl
            · intro vs' hvs
              simp at hvs
            · intro w a hm
              rw [pushEff_log] at hm
              rcases List.mem_append.mp hm with hm | hm
              · exact hC1 w a hm
              · simp only [List.mem_singleton, Eff.castCall.injEq] at hm
                obtain ⟨-, rfl⟩ := hm
                rw [hA1, h1]
                rfl
          | val v =>
            by_cases hinf : ctx.isInfinite = true
            · have hst2 : (jsToLower c == jsToLower ctx.cfg.stopWord)
                  = false := by
                rw [hinf] at hstop'
                simpa using hstop'
              by_cases hlim : (match ctx.cfg.limit with
                  | none => true
                  | some n => decide ((values ++ [v]).length < n)) = true
              · rw [promptStep_cast_val_cont _ _ _ _ _ _ _ hcan' hst2 hinf
                  hcast hlim]
                dsimp only
                refine ih ctx.origMsg 1 (values ++ [v]) _ ?_ ?_
                · show manyOf (getArg (setArg _ ctx.id
                      (.many (values ++ [v]))) ctx.id) = some (values ++ [v])
                  rw [getArg_setArg]
                  rfl
                · intro w a hm
                  rcases List.mem_append.mp hm with hm | hm
                  · exact hC1 w a hm
                  · simp only [List.mem_singleton, Eff.castCall.injEq] at hm
                    obtain ⟨-, rfl⟩ := hm
                    rw [hA1, h1]
                    rfl
              · have hlim' : (match ctx.cfg.limit with
                    | none => true
                    | some n => decide ((values ++ [v]).length < n))
                      = false := by
                  simpa using hlim
                rw [promptStep_cast_val_done _ _ _ _ _ _ _ hcan' hst2 hinf
                  hcast hlim']
                dsimp only
                refine ⟨⟨?_, ?_⟩, ?_⟩
                · show (manyOf (getArg (setArg _ ctx.id
                      (.many (values ++ [v]))) ctx.id)).isSome
                  rw [getArg_setArg]
                  rfl
                · intro vs' hvs
                  cases hvs
                  show manyOf (getArg (setArg _ ctx.id
                      (.many (values ++ [v]))) ctx.id) = some (values ++ [v])
                  rw [getArg_setArg]
                  rfl
                · intro w a hm
                  rcases List.mem_append.mp hm with hm | hm
                  · exact hC1 w a hm
                  · simp only [List.mem_singleton, Eff.castCall.injEq] at hm
                    obtain ⟨-, rfl⟩ := hm
                    rw [hA1, h1]
                    rfl
            · have hinf' : ctx.isInfinite = false := by simpa using hinf
              rw [promptStep_cast_val_fin _ _ _ _ _ _ _ hcan' hinf' hcast]
              dsimp only
              refine ⟨⟨?_, ?_⟩, ?_⟩
              · rw [pushEff_args, hA1, h1]
                rfl
              · intro vs' hvs
                simp at hvs
              · intro w a hm
                rw [pushEff_log] at hm
                rcases List.mem_append.mp hm with hm | hm
                · exact hC1 w a hm
                · simp only [List.mem_singleton, Eff.castCall.injEq] at hm
                  obtain ⟨-, rfl⟩ := hm
                  rw [hA1, h1]
                  rfl

/-- **C10.**  In effectively infinite mode, `collect` stores the (initially
empty) accumulated-values array into the prior-arguments object under this
argument's id before the first reply is awaited, keeps it in sync with the
accumulation, and the binding persists in the final state for *every*
terminal outcome — including sessions ending by cancellation or timeout
rather than by returning the sequence (first conjunct); when the session
does return the sequence, the binding holds exactly that sequence (second
conjunct); and every invocation of `cast` during the session observed a
prior-arguments object carrying the accumulated array (third conjunct). -/
theorem claim10_args_aliasing (cfg : PromptOpts) (ty : TypeSpec)
    (resolver : Resolver) (matchType : MatchType)
    (id origMsg commandInput : String) (args : Args) (script : List Event)
    (hinf : isInf cfg matchType commandInput = true) :
    ((manyOf (getArg (collect cfg ty resolver matchType id origMsg args
        commandInput script).2.1.args id)).isSome
      ∧ ∀ vs', (collect cfg ty resolver matchType id origMsg args
          commandInput script).1 = .values vs' →
        manyOf (getArg (collect cfg ty resolver matchType id origMsg args
          commandInput script).2.1.args id) = some vs')
    ∧ ∀ w a, Eff.castCall w a ∈ (collect cfg ty resolver matchType id
        origMsg args commandInput script).2.1.log →
      (manyOf (getArg a id)).isSome := by
  simp only [collect, hinf, if_true]
  have h := promptOne_args_inv
    ⟨cfg, ty, resolver, origMsg, commandInput, true, id⟩ script origMsg
    (1 + if commandInput ≠ "" then 1 else 0) []
    ⟨setArg args id (.many []), false, []⟩
    (by rw [getArg_setArg]; rfl)
    (by intro w a hm; simp at hm)
  cases ho : (promptOne ⟨cfg, ty, resolver, origMsg, commandInput, true, id⟩
      script origMsg (1 + if commandInput ≠ "" then 1 else 0) []
      ⟨setArg args id (.many []), false, []⟩).1 with
  | value v =>
    rw [ho] at h
    dsimp only
    refine ⟨⟨h.1.1, ?_⟩, ?_⟩
    · intro vs' hvs
      simp at hvs
    · intro w a hm
      rw [pushEff_log, withActive_log] at hm
      rcases List.mem_append.mp hm with hm | hm
      · exact h.2 w a hm
      · simp at hm
  | values vs =>
    rw [ho] at h
    dsimp only
    refine ⟨⟨h.1.1, ?_⟩, ?_⟩
    · intro vs' hvs
      have hvv : vs = vs' := by
        cases hvs
        rfl
      subst hvv
      exact h.1.2 vs rfl
    · intro w a hm
      rw [pushEff_log, withActive_log] at hm
      rcases List.mem_append.mp hm with hm | hm
      · exact h.2 w a hm
      · simp at hm
  | cancelled =>
    rw [ho] at h
    dsimp only
    exact ⟨⟨h.1.1, fun vs' hvs => by simp at hvs⟩, h.2⟩
  | failure code =>
    rw [ho] at h
    dsimp only
    exact ⟨⟨h.1.1, fun vs' hvs => by simp at hvs⟩, h.2⟩
  | hung =>
    rw [ho] at h
    dsimp only
    exact ⟨⟨h.1.1, fun vs' hvs => by simp at hvs⟩, h.2⟩

/-- Witness for C10: a session returning `[.str "a"]` leaves
`args["arg"] = [.str "a"]`, and a session ending in a timeout still leaves
the (empty) accumulation bound under `"arg"` in the final state. -/
theorem claim10_witness :
    manyOf (getArg (collect wCfgInf1 (.fn fun w _ _ => some (.str w))
        wResolver .word "arg" "orig" [] "" [.reply "a"]).2.1.args "arg")
      = some [.str "a"]
    ∧ (manyOf (getArg (collect wCfgInf1 (.fn fun w _ _ => some (.str w))
        wResolver .word "arg" "orig" [] "" [.timeout]).2.1.args
        "arg")).isSome :=
  ⟨(claim10_args_aliasing wCfgInf1 (.fn fun w _ _ => some (.str w))
      wResolver .word "arg" "orig" "" [] [.reply "a"] rfl).1.2 [.str "a"]
      (by decide),
   (claim10_args_aliasing wCfgInf1 (.fn fun w _ _ => some (.str w))
      wResolver .word "arg" "orig" "" [] [.timeout] rfl).1.1⟩

/-! ## C9: the text-templating layer -/

/-- Classification of every template-function call the engine makes: the
`ended` option is never invoked, the `infinite` flag passed is the
session's, and the timeout and cancel templates always receive the empty
string as `word`. -/
def TcallOK (inf : Bool) (e : Eff) : Prop :=
  ∀ f d, e = Eff.tcall f d →
    f ≠ TField.ended ∧ d.infinite = inf
    ∧ ((f = TField.timeout ∨ f = TField.cancel) → d.word = "")

theorem tcallOK_of (inf : Bool) (F : TField) (D : PromptData)
    (h1 : F ≠ TField.ended) (h2 : D.infinite = inf)
    (h3 : (F = TField.timeout ∨ F = TField.cancel) → D.word = "") :
    TcallOK inf (Eff.tcall F D) := by
  rintro f d hfd
  injection hfd with hf hd
  subst hf
  subst hd
  exact ⟨h1, h2, h3⟩

theorem tcallOK_not (inf : Bool) (e : Eff)
    (h : ∀ f d, e ≠ Eff.tcall f d) : TcallOK inf e :=
  fun f d hfd => absurd hfd (h f d)

theorem logMem_stExt {P : Eff → Prop} {st st' : MState}
    (h : StExt P st st') : ∀ e ∈ st'.log, e ∈ st.log ∨ P e := by
  obtain ⟨-, -, ex, hlog, hex⟩ := h
  intro e he
  rw [hlog] at he
  rcases List.mem_append.mp he with hm | hm
  · exact Or.inl hm
  · exact Or.inr (hex e hm)

theorem tcallOK_turn (ctx : Ctx) (prev : String) (rc : Nat)
    (values : List CVal) (st : MState)
    (h : ∀ e ∈ st.log, TcallOK ctx.isInfinite e) :
    ∀ e ∈ (sendPhase ctx prev rc values (registerTurn rc st)).log,
      TcallOK ctx.isInfinite e := by
  intro e he
  rcases logMem_stExt (sendPhase_stExt ctx prev rc values (registerTurn rc st))
      e he with hm | hp
  · rw [(registerTurn_state rc st).2.2] at hm
    rcases List.mem_append.mp hm with hm | hm
    · exact h e hm
    · simp only [List.mem_singleton] at hm
      subst hm
      exact tcallOK_not _ _ (by intro f d h'; cases h')
  · rcases hp with ⟨s, rfl⟩ | rfl
    · exact tcallOK_not _ _ (by intro f d h'; cases h')
    · refine tcallOK_of _ _ _ ?_ rfl ?_
      · split <;> intro h' <;> cases h'
      · rintro (h' | h') <;> revert h' <;> split <;> intro h' <;> cases h'

theorem closeOut_tcallOK (ctx : Ctx) (field : TField) (opt : TextOpt)
    (rc : Nat) (im : String) (st : MState)
    (hfield : field ≠ TField.ended)
    (h : ∀ e ∈ st.log, TcallOK ctx.isInfinite e) :
    ∀ e ∈ (pushEff Eff.removePrompt
      { sendIf (getText ctx field opt rc im "" st).1
          (getText ctx field opt rc im "" st).2 with active := false }).log,
      TcallOK ctx.isInfinite e := by
  intro e he
  rw [pushEff_log, withActive_log] at he
  rcases List.mem_append.mp he with hm | hm
  · rcases logMem_stExt (closePhase_stExt ctx field opt rc im "" st) e hm
        with hm' | hp
    · exact h e hm'
    · rcases hp with ⟨s, rfl⟩ | rfl
      · exact tcallOK_not _ _ (by intro f d h'; cases h')
      · exact tcallOK_of _ _ _ hfield rfl (fun _ => rfl)
  · simp only [List.mem_singleton] at hm
    subst hm
    exact tcallOK_not _ _ (by intro f d h'; cases h')

theorem tcallOK_push_other (inf : Bool) (e : Eff) (st : MState)
    (he : TcallOK inf e) (h : ∀ x ∈ st.log, TcallOK inf x) :
    ∀ x ∈ (pushEff e st).log, TcallOK inf x := by
  intro x hx
  rw [pushEff_log] at hx
  rcases List.mem_append.mp hx with hm | hm
  · exact h x hm
  · simp only [List.mem_singleton] at hm
    subst hm
    exact he

/-- Every template call a whole session makes is classified by `TcallOK`. -/
theorem promptOne_tcall_inv (ctx : Ctx) :
    ∀ (script : List Event) (prev : String) (rc : Nat) (values : List CVal)
      (st : MState),
      (∀ e ∈ st.log, TcallOK ctx.isInfinite e) →
      ∀ e ∈ (promptOne ctx script prev rc values st).2.1.log,
        TcallOK ctx.isInfinite e := by
  intro script
  induction script with
  | nil =>
    intro prev rc values st h
    rw [promptOne_nil]
    dsimp only
    rw [finishTimeout_snd]
    exact closeOut_tcallOK ctx .timeout ctx.cfg.timeout rc prev _
      (by intro h'; cases h') (tcallOK_turn ctx prev rc values st h)
  | cons ev rest ih =>
    intro prev rc values st h
    have hT := tcallOK_turn ctx prev rc values st h
    rw [promptOne_cons]
    cases ev with
    | timeout =>
      rw [promptStep_timeout]
      dsimp only
      rw [finishTimeout_snd]
      exact closeOut_tcallOK ctx .timeout ctx.cfg.timeout rc prev _
        (by intro h'; cases h') hT
    | fail code =>
      rw [promptStep_fail]
      dsimp only
      exact hT
    | reply c =>
      by_cases hcan : (jsToLower c == jsToLower ctx.cfg.cancelWord) = true
      · rw [promptStep_cancel _ _ _ _ _ _ hcan]
        dsimp only
        exact closeOut_tcallOK ctx .cancel ctx.cfg.cancel rc c _
          (by intro h'; cases h') hT
      · have hcan' : (jsToLower c == jsToLower ctx.cfg.cancelWord)
            = false := by simpa using hcan
        by_cases hstop : (ctx.isInfinite
            && (jsToLower c == jsToLower ctx.cfg.stopWord)) = true
        · have hh : ctx.isInfinite = true
              ∧ (jsToLower c == jsToLower ctx.cfg.stopWord) = true := by
            simpa using hstop
          obtain ⟨hinf, hst⟩ := hh
          by_cases hv : values.isEmpty = true
          · rw [promptStep_stop_empty _ _ _ _ _ _ hinf hcan' hst hv]
            dsimp only
            exact ih c (rc + 1) values _ hT
          · have hv' : values.isEmpty = false := by simpa using hv
            rw [promptStep_stop_full _ _ _ _ _ _ hinf hcan' hst hv']
            dsimp only
            exact hT
        · have hstop' : (ctx.isInfinite
              && (jsToLower c == jsToLower ctx.cfg.stopWord)) = false := by
            simpa using hstop
          cases hcast : cast ctx.resolver ctx.ty c c
              (sendPhase ctx prev rc values (registerTurn rc st)).args with
          | null =>
            rw [promptStep_cast_null _ _ _ _ _ _ hcan' hstop' hcast]
            dsimp only
            exact ih c (rc + 1) values _
              (tcallOK_push_other _ _ _
                (tcallOK_not _ _ (by intro f d h'; cases h')) hT)
          | diverge =>
            rw [promptStep_cast_diverge _ _ _ _ _ _ hcan' hstop' hcast]
            dsimp only
            exact tcallOK_push_other _ _ _
              (tcallOK_not _ _ (by intro f d h'; cases h')) hT
          | val v =>
            by_cases hinf : ctx.isInfinite = true
            · have hst2 : (jsToLower c == jsToLower ctx.cfg.stopWord)
                  = false := by
                rw [hinf] at hstop'
                simpa using hstop'
              by_cases hlim : (match ctx.cfg.limit with
                  | none => true
                  | some n => decide ((values ++ [v]).length < n)) = true
              · rw [promptStep_cast_val_cont _ _ _ _ _ _ _ hcan' hst2 hinf
                  hcast hlim]
                dsimp only
                refine ih ctx.origMsg 1 (values ++ [v]) _ ?_
                intro e he
                rcases List.mem_append.mp he with hm | hm
                · exact hT e hm
                · simp only [List.mem_singleton] at hm
                  subst hm
                  exact tcallOK_not _ _ (by intro f d h'; cases h')
              · have hlim' : (match ctx.cfg.limit with
                    | none => true
                    | some n => decide ((values ++ [v]).length < n))
                      = false := by simpa using hlim
                rw [promptStep_cast_val_done _ _ _ _ _ _ _ hcan' hst2 hinf
                  hcast hlim']
                dsimp only
                intro e he
                rcases List.mem_append.mp he with hm | hm
                · exact hT e hm
                · simp only [List.mem_singleton] at hm
                  subst hm
                  exact tcallOK_not _ _ (by intro f d h'; cases h')
            · have hinf' : ctx.isInfinite = false := by simpa using hinf
              rw [promptStep_cast_val_fin _ _ _ _ _ _ _ hcan' hinf' hcast]
              dsimp only
              exact tcallOK_push_other _ _ _
                (tcallOK_not _ _ (by intro f d h'; cases h')) hT

/-- **C9 (amended).**  The text-templating layer behaves as follows.
(1) Over any whole `collect` run, every template-function call satisfies:
the `ended` option is *never* invoked, the `infinite` flag passed is the
session's effective infinite flag, and — contrary to the claim as stated —
the `timeout` and `cancel` templates always receive the *empty string* as
`word`, not the best-available prior input.  (2) A template call made by
the send phase of a turn is the `start` template on a first turn and the
`retry` template on a retry turn, called with
`{retries := retryCount, infinite, message := the previous message,
word := wordArg}`.  (3) `wordArg` is the original failing token on the
first one or two turns (while `retryCount ≤ 1 + (1 if a token was given))`
and the previous reply's content on later turns.  (4) An array option is
joined with newlines.  (5)(6) Empty or absent resolved text suppresses
sending; non-empty text is sent. -/
theorem claim9_templating :
    (∀ (cfg : PromptOpts) (ty : TypeSpec) (resolver : Resolver)
        (matchType : MatchType) (id origMsg commandInput : String)
        (args : Args) (script : List Event) (f : TField) (d : PromptData),
        Eff.tcall f d ∈ (collect cfg ty resolver matchType id origMsg args
            commandInput script).2.1.log →
          f ≠ TField.ended
          ∧ d.infinite = isInf cfg matchType commandInput
          ∧ ((f = TField.timeout ∨ f = TField.cancel) → d.word = ""))
    ∧ (∀ (ctx : Ctx) (prev : String) (rc : Nat) (values : List CVal)
        (st : MState) (f : TField) (d : PromptData),
        Eff.tcall f d ∈ (sendPhase ctx prev rc values st).log →
          Eff.tcall f d ∈ st.log
          ∨ (f = (if rc == 1 then TField.start else TField.retry)
             ∧ d = ⟨rc, ctx.isInfinite, prev, wordArg ctx prev rc⟩))
    ∧ (∀ (ctx : Ctx) (prev : String) (rc : Nat),
        (rc ≤ 1 + (if ctx.commandInput ≠ "" then 1 else 0) →
          wordArg ctx prev rc = ctx.commandInput)
        ∧ (1 + (if ctx.commandInput ≠ "" then 1 else 0) < rc →
          wordArg ctx prev rc = prev))
    ∧ (∀ (ctx : Ctx) (field : TField) (l : List String) (rc : Nat)
        (im iw : String) (st : MState),
        getText ctx field (.strs l) rc im iw st
          = (some (String.intercalate "\n" l), st))
    ∧ (∀ st : MState, sendIf (some "") st = st ∧ sendIf none st = st)
    ∧ (∀ (s : String) (st : MState), s ≠ "" →
        sendIf (some s) st = pushEff (.send s) st) := by
  refine ⟨?_, ?_, ?_, ?_, ?_, ?_⟩
  · intro cfg ty resolver matchType id origMsg commandInput args script f d
    have hinv := promptOne_tcall_inv
      ⟨cfg, ty, resolver, origMsg, commandInput,
       isInf cfg matchType commandInput, id⟩ script origMsg
      (1 + if commandInput ≠ "" then 1 else 0) []
      ⟨if isInf cfg matchType commandInput then setArg args id (.many [])
        else args, false, []⟩
      (by intro e he; simp at he)
    simp only [collect]
    cases ho : (promptOne
        ⟨cfg, ty, resolver, origMsg, commandInput,
         isInf cfg matchType commandInput, id⟩ script origMsg
        (1 + if commandInput ≠ "" then 1 else 0) []
        ⟨if isInf cfg matchType commandInput then setArg args id (.many [])
          else args, false, []⟩).1 with
    | value v =>
      dsimp only
      intro hmem
      rw [pushEff_log, withActive_log] at hmem
      rcases List.mem_append.mp hmem with hm | hm
      · exact hinv _ hm f d rfl
      · simp at hm
    | values vs =>
      dsimp only
      intro hmem
      rw [pushEff_log, withActive_log] at hmem
      rcases List.mem_append.mp hmem with hm | hm
      · exact hinv _ hm f d rfl
      · simp at hm
    | cancelled =>
      dsimp only
      intro hmem
      exact hinv _ hmem f d rfl
    | failure code =>
      dsimp only
      intro hmem
      exact hinv _ hmem f d rfl
    | hung =>
      dsimp only
      intro hmem
      exact hinv _ hmem f d rfl
  · intro ctx prev rc values st f d hmem
    rcases logMem_stExt (sendPhase_stExt ctx prev rc values st) _ hmem
        with hm | hp
    · exact Or.inl hm
    · rcases hp with ⟨s, h'⟩ | h'
      · simp at h'
      · injection h' with h1 h2
        exact Or.inr ⟨h1, h2⟩
  · intro ctx prev rc
    constructor
    · intro h
      rw [wordArg, if_pos h]
    · intro h
      rw [wordArg, if_neg (by omega)]
  · intro ctx field l rc im iw st
    rfl
  · intro st
    exact ⟨rfl, rfl⟩
  · intro s st h
    simp [sendIf, h]

/-- Prompt options whose `cancel` template records the `word` it was
given. -/
def cxCfg9 : PromptOpts :=
  { wPromptBase with cancel := .fn fun _ _ d => .str ("got:" ++ d.word) }

/-- Counterexample for C9 as stated: the session begins with the failing
token `"bad"` (so the best-available prior input is `"bad"`, which is not
empty — second conjunct), yet when the user cancels, the `cancel` template
function is called with `word = ""` (the source passes the literal `''` at
line 443), as the recorded call data and the sent text `"got:"` show.  The
claim's templating rule (word = best-available prior input for *every*
text field) therefore fails for the cancel field; the `ended` field is
never invoked at all. -/
theorem claim9_counterexample :
    (collect cxCfg9 (.choices [.str "ok"]) wResolver .word "arg" "orig" []
        "bad" [.reply "cancel"]).2.1.log
      = [.addPrompt 2, .tcall .cancel ⟨2, false, "cancel", ""⟩,
         .send "got:", .removePrompt]
    ∧ ("bad" : String) ≠ "" := by
  decide

/-- Witness for C9: array prompt text is joined with a newline, the word
handed to a first turn's template is the (empty) original input, and empty
resolved text is not sent. -/
theorem claim9_witness :
    getText wCtx TField.start (.strs ["line1", "line2"]) 1 "m" "w"
        ⟨[], false, []⟩
      = (some "line1\nline2", ⟨[], false, []⟩)
    ∧ wordArg wCtx "p" 1 = ""
    ∧ sendIf (some "") ⟨[], false, []⟩ = ⟨[], false, []⟩ :=
  ⟨claim9_templating.2.2.2.1 wCtx .start ["line1", "line2"] 1 "m" "w"
      ⟨[], false, []⟩,
   (claim9_templating.2.2.1 wCtx "p" 1).1 (by decide),
   (claim9_templating.2.2.2.2.1 ⟨[], false, []⟩).1⟩

/-! ## C1: the `retries` ceiling is never enforced -/

/-- Whether an effect registers a retry turn (a turn with
`retryCount > 1`). -/
def isRetryTurnEff : Eff → Bool
  | .addPrompt rc => decide (1 < rc)
  | _ => false

/-- Prompt options with `retries = 1`, a visible retry text, and a
configured `ended` text. -/
def cxCfg1 : PromptOpts :=
  { wPromptBase with retry := .str "try again", ended := .str "ended!" }

/-- **C1 (code bug).**  `retries = 1` is configured, yet after a failing
initial token (`"bad"`) and three further failing replies the session is
still running: it executes 4 retry turns (turns with `retryCount > 1`),
sends the retry text on every one of them, never sends the configured
`ended` text, and finally returns the fourth reply's cast value.  Nothing
in `promptOne` ever reads `prompt.retries` or `prompt.ended`, so the
configured attempt ceiling — which the claim and the source's own JSDoc
(lines 103, 108-109, 115) describe — is never enforced. -/
theorem claim1_retries_not_enforced :
    cxCfg1.retries = 1
    ∧ (collect cxCfg1 (.choices [.str "ok"]) wResolver .word "arg" "orig"
        [] "bad" [.reply "x1", .reply "x2", .reply "x3", .reply "ok"]).1
      = .value (.str "ok")
    ∧ (collect cxCfg1 (.choices [.str "ok"]) wResolver .word "arg" "orig"
        [] "bad" [.reply "x1", .reply "x2", .reply "x3",
                  .reply "ok"]).2.1.log.countP isRetryTurnEff = 4
    ∧ (collect cxCfg1 (.choices [.str "ok"]) wResolver .word "arg" "orig"
        [] "bad" [.reply "x1", .reply "x2", .reply "x3",
                  .reply "ok"]).2.1.log.countP
          (fun e => e == Eff.send "try again") = 4
    ∧ Eff.send "ended!" ∉ (collect cxCfg1 (.choices [.str "ok"]) wResolver
        .word "arg" "orig" [] "bad"
        [.reply "x1", .reply "x2", .reply "x3", .reply "ok"]).2.1.log := by
  decide

end Akairo
